import Mathlib

/-!
# MiladyOS — verification of the metadata / pipeline-orchestration core

Shallow embedding of the parts of `miladyos_metadata.py` (class
`RedkaMetadataManager`) and `miladyos_mcp.py` (classes `JenkinsUtils`,
`MiladyOSToolServer`) that the specification's claims are about.

Conventions of the embedding:
* Redis hashes for executions and templates are modelled as Lean structures
  whose `String` fields default to `""`; the Python code reads every hash
  field through `.get(...)` with a falsy default or guards it with
  truthiness, so an absent field and an empty-string field are
  indistinguishable to it.
* Redis sorted sets are association lists `List (String × Nat)` pairing a
  member with its integer score (`time.time()` is modelled as a `Nat`
  timestamp supplied by the caller, since wall-clock time is an input).
* Redis sets are `List String`, filesystem contents are association lists
  from path to file text, and wall-clock ISO timestamps are opaque `String`
  inputs.
* Python `json.dumps` / `json.loads` (standard library) are modelled by an
  executable serializer and recursive-descent parser over a JSON value
  type, with a proved round-trip theorem; the serializer follows CPython's
  default compact-with-spaces format (`", "` and `": "` separators,
  standard string escapes).
* Exceptions are modelled with `Except String` / `Option`; a caught
  exception follows the source's handler.
-/

namespace MiladyOS

/-! ## JSON values: model of Python dicts passed as `parameters`

A `Jv` is a JSON value as produced by deserializing the `parameters`
argument of an MCP tool call.  Numbers are modelled as integers (the
claims under verification never depend on float formatting).  Objects are
association lists in insertion order, matching CPython's ordered dicts. -/

inductive Jv where
  | null : Jv
  | bool (b : Bool) : Jv
  | num (n : Int) : Jv
  | str (s : String) : Jv
  | arr (elems : List Jv) : Jv
  | obj (fields : List (String × Jv)) : Jv
  deriving Repr

/-- The character `\x7b` (left curly brace), kept out of literals. -/
def lcurly : Char := Char.ofNat 123

/-- The character `\x7d` (right curly brace), kept out of literals. -/
def rcurly : Char := Char.ofNat 125

/-- Lower-case hexadecimal digit, as emitted by CPython's `json` encoder. -/
def hexDigit (n : Nat) : Char :=
  if n < 10 then Char.ofNat (48 + n) else Char.ofNat (87 + n)

/-- JSON string escaping of one character (`json.dumps` on the
character): the two mandatory escapes, the short control escapes, and
`\u00XX` for the remaining control characters. -/
def escapeChar (c : Char) : List Char :=
  if c = '"' then ['\\', '"']
  else if c = '\\' then ['\\', '\\']
  else if c = '\n' then ['\\', 'n']
  else if c = '\t' then ['\\', 't']
  else if c = '\r' then ['\\', 'r']
  else if c.toNat = 8 then ['\\', 'b']
  else if c.toNat = 12 then ['\\', 'f']
  else if c.toNat < 32 then
    ['\\', 'u', '0', '0', hexDigit (c.toNat / 16), hexDigit (c.toNat % 16)]
  else [c]

/-- Encoding of a JSON string literal, quotes included. -/
def encStr (s : String) : List Char :=
  '"' :: s.data.flatMap escapeChar ++ ['"']

/-- Decimal digits of a natural number, most significant first. -/
def natDec (n : Nat) : List Char :=
  if h : n < 10 then [Char.ofNat (48 + n)]
  else natDec (n / 10) ++ [Char.ofNat (48 + n % 10)]
  decreasing_by exact Nat.div_lt_self (by omega) (by omega)

/-- Decimal rendering of an integer (`repr` of a Python int). -/
def intDec (i : Int) : List Char :=
  if i < 0 then '-' :: natDec (-i).toNat else natDec i.toNat

mutual

/-- `json.dumps` with default options, modelled at the character level. -/
def encJv : Jv → List Char
  | .null => "null".data
  | .bool true => "true".data
  | .bool false => "false".data
  | .num i => intDec i
  | .str s => encStr s
  | .arr xs => '[' :: encElems xs ++ [']']
  | .obj fs => lcurly :: encFields fs ++ [rcurly]

/-- Array elements joined by `", "`. -/
def encElems : List Jv → List Char
  | [] => []
  | [x] => encJv x
  | x :: y :: rest => encJv x ++ ',' :: ' ' :: encElems (y :: rest)

/-- Object members `"key": value` joined by `", "`. -/
def encFields : List (String × Jv) → List Char
  | [] => []
  | [(k, v)] => encStr k ++ ':' :: ' ' :: encJv v
  | (k, v) :: f :: rest =>
      encStr k ++ ':' :: ' ' :: encJv v ++ ',' :: ' ' :: encFields (f :: rest)

end

/-- The serialized form stored in the execution hash's `parameters` field. -/
def dumps (v : Jv) : String := String.mk (encJv v)

/-- Value of a hexadecimal digit character, if it is one. -/
def parseHexDigit (c : Char) : Option Nat :=
  if 48 ≤ c.toNat ∧ c.toNat ≤ 57 then some (c.toNat - 48)
  else if 97 ≤ c.toNat ∧ c.toNat ≤ 102 then some (c.toNat - 87)
  else if 65 ≤ c.toNat ∧ c.toNat ≤ 70 then some (c.toNat - 55)
  else none

/-- Short escapes recognised after a backslash. -/
def unescapeChar (c : Char) : Option Char :=
  if c = '"' then some '"'
  else if c = '\\' then some '\\'
  else if c = '/' then some '/'
  else if c = 'n' then some '\n'
  else if c = 't' then some '\t'
  else if c = 'r' then some '\r'
  else if c = 'b' then some (Char.ofNat 8)
  else if c = 'f' then some (Char.ofNat 12)
  else none

/-- Body of a JSON string literal after the opening quote: returns the
decoded characters and the input following the closing quote. -/
def parseStringBody : List Char → Option (List Char × List Char)
  | [] => none
  | c :: cs =>
    if c = '"' then some ([], cs)
    else if c = '\\' then
      match cs with
      | [] => none
      | e :: cs2 =>
        if e = 'u' then
          match cs2 with
          | h1 :: h2 :: h3 :: h4 :: cs3 =>
            match parseHexDigit h1, parseHexDigit h2, parseHexDigit h3, parseHexDigit h4 with
            | some a, some b, some c', some d =>
              (parseStringBody cs3).map fun p =>
                (Char.ofNat (a * 4096 + b * 256 + c' * 16 + d) :: p.1, p.2)
            | _, _, _, _ => none
          | _ => none
        else
          match unescapeChar e with
          | some u => (parseStringBody cs2).map fun p => (u :: p.1, p.2)
          | none => none
    else (parseStringBody cs).map fun p => (c :: p.1, p.2)
  termination_by l => l.length
  decreasing_by all_goals simp_arith [*]

/-- Digit test for ASCII decimal digits. -/
def isDigitC (c : Char) : Bool := decide (48 ≤ c.toNat ∧ c.toNat ≤ 57)

/-- Greedy decimal-digit run, accumulating the value. -/
def parseDigits (acc : Nat) : List Char → Nat × List Char
  | [] => (acc, [])
  | c :: cs =>
    if isDigitC c then parseDigits (acc * 10 + (c.toNat - 48)) cs else (acc, c :: cs)

/-- Drop leading spaces (the only whitespace the encoder emits). -/
def skipWs : List Char → List Char
  | [] => []
  | c :: cs => if c = ' ' then skipWs cs else c :: cs

mutual

/-- Recursive-descent JSON value parser (fueled; the fuel only bounds
nesting, each level consuming one unit). -/
def parseJv : Nat → List Char → Option (Jv × List Char)
  | 0, _ => none
  | f + 1, cs0 =>
    match skipWs cs0 with
    | [] => none
    | c :: cs =>
      if c = 'n' then
        match cs with
        | 'u' :: 'l' :: 'l' :: r => some (.null, r)
        | _ => none
      else if c = 't' then
        match cs with
        | 'r' :: 'u' :: 'e' :: r => some (.bool true, r)
        | _ => none
      else if c = 'f' then
        match cs with
        | 'a' :: 'l' :: 's' :: 'e' :: r => some (.bool false, r)
        | _ => none
      else if c = '"' then
        (parseStringBody cs).map fun p => (.str (String.mk p.1), p.2)
      else if c = '-' then
        match cs with
        | d :: _ =>
          if isDigitC d then
            let p := parseDigits 0 cs
            some (.num (-(p.1 : Int)), p.2)
          else none
        | [] => none
      else if isDigitC c then
        let p := parseDigits 0 (c :: cs)
        some (.num (p.1 : Int), p.2)
      else if c = '[' then
        match skipWs cs with
        | [] => none
        | c' :: r =>
          if c' = ']' then some (.arr [], r)
          else (parseElems f (c' :: r)).map fun p => (.arr p.1, p.2)
      else if c = lcurly then
        match skipWs cs with
        | [] => none
        | c' :: r =>
          if c' = rcurly then some (.obj [], r)
          else (parseFields f (c' :: r)).map fun p => (.obj p.1, p.2)
      else none

/-- Array elements after the opening bracket (non-empty case). -/
def parseElems : Nat → List Char → Option (List Jv × List Char)
  | 0, _ => none
  | f + 1, cs => (parseJv f cs).bind fun p => peAfter f p.1 (skipWs p.2)

/-- After one array element: closing bracket or comma and further elements. -/
def peAfter (f : Nat) (v : Jv) : List Char → Option (List Jv × List Char)
  | [] => none
  | c :: r =>
    if c = ']' then some ([v], r)
    else if c = ',' then (parseElems f r).map fun p => (v :: p.1, p.2)
    else none

/-- Object members after the opening brace (non-empty case). -/
def parseFields : Nat → List Char → Option (List (String × Jv) × List Char)
  | 0, _ => none
  | f + 1, cs => pfStart f (skipWs cs)

/-- A member: a quoted key, then colon and value. -/
def pfStart (f : Nat) : List Char → Option (List (String × Jv) × List Char)
  | [] => none
  | c :: r =>
    if c = '"' then (parseStringBody r).bind fun kp => pfAfterKey f kp.1 (skipWs kp.2)
    else none

/-- After a member key: expect a colon, then the value. -/
def pfAfterKey (f : Nat) (key : List Char) : List Char → Option (List (String × Jv) × List Char)
  | [] => none
  | c3 :: r3 =>
    if c3 = ':' then (parseJv f r3).bind fun q => pfAfterVal f key q.1 (skipWs q.2)
    else none

/-- After a member value: closing brace or comma and further members. -/
def pfAfterVal (f : Nat) (key : List Char) (v : Jv) :
    List Char → Option (List (String × Jv) × List Char)
  | [] => none
  | c4 :: r5 =>
    if c4 = rcurly then some ([(String.mk key, v)], r5)
    else if c4 = ',' then
      (parseFields f r5).map fun p => ((String.mk key, v) :: p.1, p.2)
    else none

end

/-- `json.loads`: parse the whole string; `none` models a raised
`JSONDecodeError` (bad syntax or trailing garbage). -/
def loads (s : String) : Option Jv :=
  match parseJv (s.length + 1) s.data with
  | some (v, rest) => if skipWs rest = [] then some v else none
  | none => none

/-! ### Round-trip: `loads (dumps v) = some v` -/

theorem char_ofNat_toNat (c : Char) : Char.ofNat c.toNat = c := by
  have h : c.val.toNat.isValidChar := c.valid
  simp only [Char.ofNat, Char.toNat, dif_pos h]
  rfl

theorem toNat_ofNat_small (n : Nat) (h : n < 55296) : (Char.ofNat n).toNat = n := by
  have hv : n.isValidChar := Or.inl h
  simp only [Char.ofNat, dif_pos hv, Char.toNat, Char.ofNatAux]
  rfl

theorem parseHexDigit_hexDigit (n : Nat) (h : n < 16) : parseHexDigit (hexDigit n) = some n := by
  interval_cases n <;> decide

theorem string_mk_data (s : String) : String.mk s.data = s := rfl

theorem psb_quote (cs : List Char) : parseStringBody ('"' :: cs) = some ([], cs) := by
  rw [parseStringBody.eq_def]
  rfl

theorem psb_other (c : Char) (cs : List Char) (h1 : c ≠ '"') (h2 : c ≠ '\\') :
    parseStringBody (c :: cs) = (parseStringBody cs).map fun p => (c :: p.1, p.2) := by
  rw [parseStringBody.eq_def]
  simp [h1, h2]

theorem psb_esc (e : Char) (u : Char) (cs : List Char) (hne : e ≠ 'u')
    (he : unescapeChar e = some u) :
    parseStringBody ('\\' :: e :: cs) = (parseStringBody cs).map fun p => (u :: p.1, p.2) := by
  rw [parseStringBody.eq_def]
  simp [hne, he]

theorem psb_u (h1 h2 h3 h4 : Char) (a b c' d : Nat) (cs : List Char)
    (ha : parseHexDigit h1 = some a) (hb : parseHexDigit h2 = some b)
    (hc : parseHexDigit h3 = some c') (hd : parseHexDigit h4 = some d) :
    parseStringBody ('\\' :: 'u' :: h1 :: h2 :: h3 :: h4 :: cs) =
      (parseStringBody cs).map fun p =>
        (Char.ofNat (a * 4096 + b * 256 + c' * 16 + d) :: p.1, p.2) := by
  rw [parseStringBody.eq_def]
  simp [ha, hb, hc, hd]

theorem parseStringBody_escape (l : List Char) (rest : List Char) :
    parseStringBody (l.flatMap escapeChar ++ '"' :: rest) = some (l, rest) := by
  induction l with
  | nil =>
    rw [List.flatMap_nil, List.nil_append, psb_quote]
  | cons c l ih =>
    simp only [List.flatMap_cons, List.append_assoc]
    by_cases h1 : c = '"'
    · subst h1
      rw [show escapeChar '"' = ['\\', '"'] from rfl]
      simp only [List.cons_append, List.nil_append]
      rw [psb_esc '"' '"' _ (by decide) (by decide)]
      simp [ih]
    · by_cases h2 : c = '\\'
      · subst h2
        rw [show escapeChar '\\' = ['\\', '\\'] from rfl]
        simp only [List.cons_append, List.nil_append]
        rw [psb_esc '\\' '\\' _ (by decide) (by decide)]
        simp [ih]
      · by_cases h3 : c = '\n'
        · subst h3
          rw [show escapeChar '\n' = ['\\', 'n'] from rfl]
          simp only [List.cons_append, List.nil_append]
          rw [psb_esc 'n' '\n' _ (by decide) (by decide)]
          simp [ih]
        · by_cases h4 : c = '\t'
          · subst h4
            rw [show escapeChar '\t' = ['\\', 't'] from rfl]
            simp only [List.cons_append, List.nil_append]
            rw [psb_esc 't' '\t' _ (by decide) (by decide)]
            simp [ih]
          · by_cases h5 : c = '\r'
            · subst h5
              rw [show escapeChar '\r' = ['\\', 'r'] from rfl]
              simp only [List.cons_append, List.nil_append]
              rw [psb_esc 'r' '\r' _ (by decide) (by decide)]
              simp [ih]
            · by_cases h6 : c.toNat = 8
              · have he : escapeChar c = ['\\', 'b'] := by
                  simp [escapeChar, h1, h2, h3, h4, h5, h6]
                have hc : Char.ofNat 8 = c := by rw [← h6]; exact char_ofNat_toNat c
                rw [he]
                simp only [List.cons_append, List.nil_append]
                rw [psb_esc 'b' (Char.ofNat 8) _ (by decide) (by decide), ih]
                simp only [Option.map_some']
                rw [hc]
              · by_cases h7 : c.toNat = 12
                · have he : escapeChar c = ['\\', 'f'] := by
                    simp [escapeChar, h1, h2, h3, h4, h5, h6, h7]
                  have hc : Char.ofNat 12 = c := by rw [← h7]; exact char_ofNat_toNat c
                  rw [he]
                  simp only [List.cons_append, List.nil_append]
                  rw [psb_esc 'f' (Char.ofNat 12) _ (by decide) (by decide), ih]
                  simp only [Option.map_some']
                  rw [hc]
                · by_cases h8 : c.toNat < 32
                  · have he : escapeChar c =
                        ['\\', 'u', '0', '0', hexDigit (c.toNat / 16), hexDigit (c.toNat % 16)] := by
                      simp [escapeChar, h1, h2, h3, h4, h5, h6, h7, h8]
                    have hhi := parseHexDigit_hexDigit (c.toNat / 16) (by omega)
                    have hlo := parseHexDigit_hexDigit (c.toNat % 16) (by omega)
                    have hcc : Char.ofNat (0 * 4096 + 0 * 256 + c.toNat / 16 * 16 + c.toNat % 16)
                        = c := by
                      have harith : 0 * 4096 + 0 * 256 + c.toNat / 16 * 16 + c.toNat % 16
                          = c.toNat := by omega
                      rw [harith]
                      exact char_ofNat_toNat c
                    have h0 : parseHexDigit '0' = some 0 := by decide
                    rw [he]
                    simp only [List.cons_append, List.nil_append]
                    rw [psb_u '0' '0' (hexDigit (c.toNat / 16)) (hexDigit (c.toNat % 16))
                        0 0 (c.toNat / 16) (c.toNat % 16) _ h0 h0 hhi hlo, ih]
                    simp only [Option.map_some']
                    rw [hcc]
                  · have he : escapeChar c = [c] := by
                      simp [escapeChar, h1, h2, h3, h4, h5, h6, h7, h8]
                    rw [he, List.cons_append, List.nil_append, psb_other c _ h1 h2]
                    simp [ih]

/-- The input does not begin with a decimal digit (so a greedy number
parse to its left stops exactly there). -/
def noDigitStart : List Char → Bool
  | [] => true
  | c :: _ => !isDigitC c

theorem natDec_digits (n : Nat) : ∀ c ∈ natDec n, isDigitC c = true := by
  induction n using Nat.strong_induction_on with
  | _ n ih =>
    rw [natDec]
    split
    · intro c hc
      simp only [List.mem_singleton] at hc
      subst hc
      simp [isDigitC, toNat_ofNat_small (48 + n) (by omega)]
      omega
    · intro c hc
      rcases List.mem_append.mp hc with h | h
      · exact ih (n / 10) (Nat.div_lt_self (by omega) (by omega)) c h
      · simp only [List.mem_singleton] at h
        subst h
        have hm : n % 10 < 10 := Nat.mod_lt _ (by omega)
        simp [isDigitC, toNat_ofNat_small (48 + n % 10) (by omega)]
        omega

theorem natDec_ne_nil (n : Nat) : natDec n ≠ [] := by
  rw [natDec]
  split
  · simp
  · simp

theorem parseDigits_append (ds : List Char) (hds : ∀ c ∈ ds, isDigitC c = true)
    (rest : List Char) (hrest : noDigitStart rest = true) (acc : Nat) :
    parseDigits acc (ds ++ rest) =
      (ds.foldl (fun a c => a * 10 + (c.toNat - 48)) acc, rest) := by
  induction ds generalizing acc with
  | nil =>
    cases rest with
    | nil => simp [parseDigits]
    | cons c r =>
      simp only [noDigitStart, Bool.not_eq_true'] at hrest
      simp [parseDigits, hrest]
  | cons d ds ih =>
    have hd : isDigitC d = true := hds d (by simp)
    simp only [List.cons_append, parseDigits, hd, if_true]
    exact ih (fun c hc => hds c (by simp [hc])) _

theorem natDec_foldl (n : Nat) (acc : Nat) :
    (natDec n).foldl (fun a c => a * 10 + (c.toNat - 48)) acc
      = acc * 10 ^ (natDec n).length + n := by
  induction n using Nat.strong_induction_on generalizing acc with
  | _ n ih =>
    rw [natDec]
    split
    · rename_i h
      simp [toNat_ofNat_small (48 + n) (by omega)]
    · rename_i h
      rw [List.foldl_append, ih (n / 10) (Nat.div_lt_self (by omega) (by omega)) acc]
      have hm : n % 10 < 10 := Nat.mod_lt _ (by omega)
      have hlen : (natDec (n / 10) ++ [Char.ofNat (48 + n % 10)]).length
          = (natDec (n / 10)).length + 1 := by simp
      rw [hlen, pow_succ]
      simp only [List.foldl_cons, List.foldl_nil]
      rw [toNat_ofNat_small (48 + n % 10) (by omega)]
      have hassoc : acc * (10 ^ (natDec (n / 10)).length * 10)
          = acc * 10 ^ (natDec (n / 10)).length * 10 := by ring
      have hdm := Nat.div_add_mod n 10
      omega

theorem parseDigits_natDec (n : Nat) (rest : List Char) (hrest : noDigitStart rest = true) :
    parseDigits 0 (natDec n ++ rest) = (n, rest) := by
  rw [parseDigits_append (natDec n) (natDec_digits n) rest hrest 0, natDec_foldl]
  simp

/-- Characters that can open an encoded JSON value. -/
def jvStartChar (c : Char) : Prop :=
  c = 'n' ∨ c = 't' ∨ c = 'f' ∨ c = '"' ∨ c = '-' ∨ isDigitC c = true ∨ c = '[' ∨ c = lcurly

theorem digit_ne_specials (c : Char) (h : isDigitC c = true) :
    c ≠ 'n' ∧ c ≠ 't' ∧ c ≠ 'f' ∧ c ≠ '"' ∧ c ≠ '-' ∧ c ≠ '[' ∧ c ≠ lcurly ∧ c ≠ ' '
      ∧ c ≠ ']' ∧ c ≠ rcurly := by
  refine ⟨?_, ?_, ?_, ?_, ?_, ?_, ?_, ?_, ?_, ?_⟩ <;>
    (rintro rfl; revert h; decide)

theorem natDec_head (n : Nat) : ∃ c cs, natDec n = c :: cs ∧ isDigitC c = true := by
  induction n using Nat.strong_induction_on with
  | _ n ih =>
    rw [natDec]
    split
    · rename_i h
      refine ⟨Char.ofNat (48 + n), [], rfl, ?_⟩
      simp [isDigitC, toNat_ofNat_small (48 + n) (by omega)]
      omega
    · rename_i h
      obtain ⟨c, cs, heq, hd⟩ := ih (n / 10) (Nat.div_lt_self (by omega) (by omega))
      exact ⟨c, cs ++ [Char.ofNat (48 + n % 10)], by rw [heq]; simp, hd⟩

theorem encJv_head (v : Jv) : ∃ c cs, encJv v = c :: cs ∧ jvStartChar c := by
  cases v with
  | null => exact ⟨'n', _, rfl, Or.inl rfl⟩
  | bool b =>
    cases b with
    | true => exact ⟨'t', _, rfl, Or.inr (Or.inl rfl)⟩
    | false => exact ⟨'f', _, rfl, Or.inr (Or.inr (Or.inl rfl))⟩
  | num i =>
    by_cases h : i < 0
    · exact ⟨'-', natDec (-i).toNat, by simp [encJv, intDec, h],
        Or.inr (Or.inr (Or.inr (Or.inr (Or.inl rfl))))⟩
    · obtain ⟨c, cs, heq, hd⟩ := natDec_head i.toNat
      exact ⟨c, cs, by simp [encJv, intDec, h, heq],
        Or.inr (Or.inr (Or.inr (Or.inr (Or.inr (Or.inl hd)))))⟩
  | str s => exact ⟨'"', _, rfl, Or.inr (Or.inr (Or.inr (Or.inl rfl)))⟩
  | arr xs =>
    exact ⟨'[', _, rfl, Or.inr (Or.inr (Or.inr (Or.inr (Or.inr (Or.inr (Or.inl rfl))))))⟩
  | obj fs =>
    exact ⟨lcurly, _, rfl,
      Or.inr (Or.inr (Or.inr (Or.inr (Or.inr (Or.inr (Or.inr rfl))))))⟩

theorem jvStart_ne (c : Char) (h : jvStartChar c) :
    c ≠ ' ' ∧ c ≠ ']' ∧ c ≠ rcurly := by
  rcases h with rfl | rfl | rfl | rfl | rfl | h | rfl | rfl
  · exact ⟨by decide, by decide, by decide⟩
  · exact ⟨by decide, by decide, by decide⟩
  · exact ⟨by decide, by decide, by decide⟩
  · exact ⟨by decide, by decide, by decide⟩
  · exact ⟨by decide, by decide, by decide⟩
  · obtain ⟨-, -, -, -, -, -, -, h8, h9, h10⟩ := digit_ne_specials c h
    exact ⟨h8, h9, h10⟩
  · exact ⟨by decide, by decide, by decide⟩
  · exact ⟨by decide, by decide, by decide⟩

/-- The head of a non-empty element list's encoding is a value start. -/
theorem encElems_head (x : Jv) (xs : List Jv) :
    ∃ c cs, encElems (x :: xs) = c :: cs ∧ jvStartChar c := by
  obtain ⟨c, cs, heq, hs⟩ := encJv_head x
  cases xs with
  | nil => exact ⟨c, cs, by rw [encElems, heq], hs⟩
  | cons y ys => exact ⟨c, cs ++ ',' :: ' ' :: encElems (y :: ys), by rw [encElems, heq]; rfl, hs⟩

theorem skipWs_cons_ne (c : Char) (cs : List Char) (h : c ≠ ' ') :
    skipWs (c :: cs) = c :: cs := by
  simp [skipWs, h]

/-- Leading separator whitespace: either nothing or one space. -/
def wsOpt (ws : List Char) : Prop := ws = [] ∨ ws = [' ']

theorem skipWs_wsOpt (ws cs : List Char) (h : wsOpt ws) :
    skipWs (ws ++ cs) = skipWs cs := by
  rcases h with rfl | rfl
  · rfl
  · simp [skipWs]

mutual

/-- Fuel sufficient to parse an encoded value (one unit per nesting level). -/
def sizeJv : Jv → Nat
  | .null => 1
  | .bool _ => 1
  | .num _ => 1
  | .str _ => 1
  | .arr xs => 1 + sizeElems xs
  | .obj fs => 1 + sizeFields fs

def sizeElems : List Jv → Nat
  | [] => 1
  | v :: vs => 1 + max (sizeJv v) (sizeElems vs)

def sizeFields : List (String × Jv) → Nat
  | [] => 1
  | kv :: fs => 1 + max (sizeJv kv.2) (sizeFields fs)

end

theorem sizeJv_pos (v : Jv) : 1 ≤ sizeJv v := by
  cases v <;> simp [sizeJv]

theorem sizeElems_pos (xs : List Jv) : 1 ≤ sizeElems xs := by
  cases xs <;> simp [sizeElems]

theorem sizeFields_pos (fs : List (String × Jv)) : 1 ≤ sizeFields fs := by
  cases fs <;> simp [sizeFields]

theorem pj_ws (f : Nat) (ws cs : List Char) (h : wsOpt ws) :
    parseJv (f + 1) (ws ++ cs) = parseJv (f + 1) cs := by
  rcases h with rfl | rfl
  · rfl
  · rw [parseJv.eq_def]
    conv_rhs => rw [parseJv.eq_def]
    simp [skipWs]

theorem pj_null (f : Nat) (r : List Char) :
    parseJv (f + 1) ('n' :: 'u' :: 'l' :: 'l' :: r) = some (.null, r) := by
  rw [parseJv.eq_def]
  rfl

theorem pj_true (f : Nat) (r : List Char) :
    parseJv (f + 1) ('t' :: 'r' :: 'u' :: 'e' :: r) = some (.bool true, r) := by
  rw [parseJv.eq_def]
  rfl

theorem pj_false (f : Nat) (r : List Char) :
    parseJv (f + 1) ('f' :: 'a' :: 'l' :: 's' :: 'e' :: r) = some (.bool false, r) := by
  rw [parseJv.eq_def]
  rfl

theorem pj_str (f : Nat) (cs : List Char) :
    parseJv (f + 1) ('"' :: cs) =
      (parseStringBody cs).map fun p => (.str (String.mk p.1), p.2) := by
  rw [parseJv.eq_def]
  simp [skipWs]

theorem pj_digit (f : Nat) (c : Char) (cs : List Char) (h : isDigitC c = true) :
    parseJv (f + 1) (c :: cs) =
      some (.num ((parseDigits 0 (c :: cs)).1 : Int), (parseDigits 0 (c :: cs)).2) := by
  obtain ⟨hn, ht, hf, hq, hm, -, -, hsp, -, -⟩ := digit_ne_specials c h
  rw [parseJv.eq_def]
  simp [skipWs_cons_ne c cs hsp, hn, ht, hf, hq, hm, h]

theorem pj_neg (f : Nat) (d : Char) (cs : List Char) (h : isDigitC d = true) :
    parseJv (f + 1) ('-' :: d :: cs) =
      some (.num (-((parseDigits 0 (d :: cs)).1 : Int)), (parseDigits 0 (d :: cs)).2) := by
  rw [parseJv.eq_def]
  simp [skipWs, h]

theorem pj_arr_nil (f : Nat) (r : List Char) :
    parseJv (f + 1) ('[' :: ']' :: r) = some (.arr [], r) := by
  rw [parseJv.eq_def]
  rfl

theorem pj_arr_cons (f : Nat) (c : Char) (cs : List Char) (hsp : c ≠ ' ') (hne : c ≠ ']') :
    parseJv (f + 1) ('[' :: c :: cs) =
      (parseElems f (c :: cs)).map fun p => (.arr p.1, p.2) := by
  have hd : isDigitC '[' = false := by decide
  rw [parseJv.eq_def]
  simp [skipWs, hd, hsp, hne]

theorem pj_obj_nil (f : Nat) (r : List Char) :
    parseJv (f + 1) (lcurly :: rcurly :: r) = some (.obj [], r) := by
  rw [parseJv.eq_def]
  rfl

theorem pj_obj_cons (f : Nat) (cs : List Char) :
    parseJv (f + 1) (lcurly :: '"' :: cs) =
      (parseFields f ('"' :: cs)).map fun p => (.obj p.1, p.2) := by
  have h1 : lcurly ≠ ' ' := by decide
  have h2 : lcurly ≠ 'n' := by decide
  have h3 : lcurly ≠ 't' := by decide
  have h4 : lcurly ≠ 'f' := by decide
  have h5 : lcurly ≠ '"' := by decide
  have h6 : lcurly ≠ '-' := by decide
  have h7 : isDigitC lcurly = false := by decide
  have h8 : lcurly ≠ '[' := by decide
  have h9 : ('"' : Char) ≠ rcurly := by decide
  rw [parseJv.eq_def]
  simp [skipWs, h1, h2, h3, h4, h5, h6, h7, h8, h9]

theorem pe_succ (f : Nat) (cs : List Char) :
    parseElems (f + 1) cs = (parseJv f cs).bind fun p => peAfter f p.1 (skipWs p.2) := by
  rw [parseElems.eq_def]

theorem peAfter_rbrack (f : Nat) (v : Jv) (r : List Char) :
    peAfter f v (']' :: r) = some ([v], r) := by
  rw [peAfter.eq_def]
  rfl

theorem peAfter_comma (f : Nat) (v : Jv) (r : List Char) :
    peAfter f v (',' :: r) = (parseElems f r).map fun p => (v :: p.1, p.2) := by
  rw [peAfter.eq_def]
  rfl

theorem pf_succ (f : Nat) (cs : List Char) :
    parseFields (f + 1) cs = pfStart f (skipWs cs) := by
  rw [parseFields.eq_def]

theorem pfStart_quote (f : Nat) (r : List Char) :
    pfStart f ('"' :: r) =
      (parseStringBody r).bind fun kp => pfAfterKey f kp.1 (skipWs kp.2) := by
  rw [pfStart.eq_def]
  rfl

theorem pfAfterKey_colon (f : Nat) (key : List Char) (r3 : List Char) :
    pfAfterKey f key (':' :: r3) =
      (parseJv f r3).bind fun q => pfAfterVal f key q.1 (skipWs q.2) := by
  rw [pfAfterKey.eq_def]
  rfl

theorem pfAfterVal_rcurly (f : Nat) (key : List Char) (v : Jv) (r : List Char) :
    pfAfterVal f key v (rcurly :: r) = some ([(String.mk key, v)], r) := by
  rw [pfAfterVal.eq_def]
  simp

theorem pfAfterVal_comma (f : Nat) (key : List Char) (v : Jv) (r : List Char) :
    pfAfterVal f key v (',' :: r) =
      (parseFields f r).map fun p => ((String.mk key, v) :: p.1, p.2) := by
  have h : ¬ (',' : Char) = rcurly := by decide
  rw [pfAfterVal.eq_def]
  simp [h]

/-- Every non-empty member list's encoding opens with a double quote. -/
theorem encFields_head (kv : String × Jv) (fs : List (String × Jv)) :
    ∃ X, encFields (kv :: fs) = '"' :: X := by
  cases kv with
  | mk k v =>
    cases fs with
    | nil =>
      exact ⟨k.data.flatMap escapeChar ++ '"' :: ':' :: ' ' :: encJv v,
        by simp [encFields, encStr]⟩
    | cons f2 fs2 =>
      exact ⟨k.data.flatMap escapeChar ++
          '"' :: ':' :: ' ' :: (encJv v ++ ',' :: ' ' :: encFields (f2 :: fs2)),
        by simp [encFields, encStr]⟩

/-- The parser reconstructs every encoded value, with any trailing input
that does not begin with a digit, given fuel at least the value's size. -/
theorem parse_enc (f : Nat) :
    (∀ ws v rest, wsOpt ws → noDigitStart rest = true → sizeJv v ≤ f →
        parseJv f (ws ++ (encJv v ++ rest)) = some (v, rest)) ∧
    (∀ ws x xs rest, wsOpt ws → sizeElems (x :: xs) ≤ f →
        parseElems f (ws ++ (encElems (x :: xs) ++ ']' :: rest)) = some (x :: xs, rest)) ∧
    (∀ ws kv fs rest, wsOpt ws → sizeFields (kv :: fs) ≤ f →
        parseFields f (ws ++ (encFields (kv :: fs) ++ rcurly :: rest)) = some (kv :: fs, rest)) := by
  induction f with
  | zero =>
    refine ⟨fun ws v rest _ _ hs => absurd hs (by have := sizeJv_pos v; omega),
      fun ws x xs rest _ hs => absurd hs (by have := sizeElems_pos (x :: xs); omega),
      fun ws kv fs rest _ hs => absurd hs (by have := sizeFields_pos (kv :: fs); omega)⟩
  | succ f ihf =>
    obtain ⟨ihP, ihQ, ihR⟩ := ihf
    refine ⟨?_, ?_, ?_⟩
    · intro ws v rest hws hrest hsize
      rw [pj_ws f ws _ hws]
      cases v with
      | null =>
        rw [show encJv .null ++ rest = 'n' :: 'u' :: 'l' :: 'l' :: rest from rfl, pj_null]
      | bool b =>
        cases b with
        | true =>
          rw [show encJv (.bool true) ++ rest = 't' :: 'r' :: 'u' :: 'e' :: rest from rfl,
            pj_true]
        | false =>
          rw [show encJv (.bool false) ++ rest = 'f' :: 'a' :: 'l' :: 's' :: 'e' :: rest from rfl,
            pj_false]
      | num i =>
        by_cases hneg : i < 0
        · have henc : encJv (.num i) = '-' :: natDec (-i).toNat := by
            simp [encJv, intDec, hneg]
          obtain ⟨d, ds, hnd, hd⟩ := natDec_head (-i).toNat
          have hshape : encJv (.num i) ++ rest = '-' :: d :: (ds ++ rest) := by
            rw [henc, hnd]
            rfl
          rw [hshape, pj_neg f d (ds ++ rest) hd]
          have hdl : d :: (ds ++ rest) = natDec (-i).toNat ++ rest := by
            rw [hnd]
            rfl
          rw [hdl, parseDigits_natDec _ rest hrest]
          have hti : (((-i).toNat : Int)) = -i := Int.toNat_of_nonneg (by omega)
          simp [hti]
        · have henc : encJv (.num i) = natDec i.toNat := by
            simp [encJv, intDec, hneg]
          obtain ⟨d, ds, hnd, hd⟩ := natDec_head i.toNat
          have hshape : encJv (.num i) ++ rest = d :: (ds ++ rest) := by
            rw [henc, hnd]
            rfl
          rw [hshape, pj_digit f d (ds ++ rest) hd]
          have hdl : d :: (ds ++ rest) = natDec i.toNat ++ rest := by
            rw [hnd]
            rfl
          rw [hdl, parseDigits_natDec _ rest hrest]
          have hti : ((i.toNat : Int)) = i := Int.toNat_of_nonneg (by omega)
          simp [hti]
      | str s =>
        have hshape : encJv (.str s) ++ rest
            = '"' :: (s.data.flatMap escapeChar ++ '"' :: rest) := by
          simp [encJv, encStr]
        rw [hshape, pj_str, parseStringBody_escape]
        simp [string_mk_data]
      | arr xs =>
        cases xs with
        | nil =>
          rw [show encJv (.arr []) ++ rest = '[' :: ']' :: rest from rfl, pj_arr_nil]
        | cons x xs =>
          obtain ⟨c, cs, hce, hcs⟩ := encElems_head x xs
          obtain ⟨hsp, hrb, -⟩ := jvStart_ne c hcs
          have hshape : encJv (.arr (x :: xs)) ++ rest = '[' :: c :: (cs ++ (']' :: rest)) := by
            simp [encJv, hce]
          rw [hshape, pj_arr_cons f c _ hsp hrb]
          have hback : c :: (cs ++ (']' :: rest))
              = [] ++ (encElems (x :: xs) ++ ']' :: rest) := by
            simp [hce]
          rw [hback, ihQ [] x xs rest (Or.inl rfl) (by simp [sizeJv] at hsize; omega)]
          rfl
      | obj fs =>
        cases fs with
        | nil =>
          rw [show encJv (.obj []) ++ rest = lcurly :: rcurly :: rest from rfl, pj_obj_nil]
        | cons kv fs =>
          obtain ⟨X, hX⟩ := encFields_head kv fs
          have hshape : encJv (.obj (kv :: fs)) ++ rest
              = lcurly :: '"' :: (X ++ (rcurly :: rest)) := by
            simp [encJv, hX]
          rw [hshape, pj_obj_cons]
          have hback : '"' :: (X ++ (rcurly :: rest))
              = [] ++ (encFields (kv :: fs) ++ rcurly :: rest) := by
            simp [hX]
          rw [hback, ihR [] kv fs rest (Or.inl rfl) (by simp [sizeJv] at hsize; omega)]
          rfl
    · intro ws x xs rest hws hsize
      cases xs with
      | nil =>
        have hsx : sizeJv x ≤ f := by
          simp [sizeElems] at hsize
          omega
        have hshape : ws ++ (encElems [x] ++ ']' :: rest) = ws ++ (encJv x ++ ']' :: rest) := rfl
        rw [pe_succ, hshape, ihP ws x (']' :: rest) hws rfl hsx]
        rw [Option.some_bind]
        rw [skipWs_cons_ne ']' rest (by decide), peAfter_rbrack]
      | cons y ys =>
        have hsx : sizeJv x ≤ f := by
          simp [sizeElems] at hsize
          omega
        have hsy : sizeElems (y :: ys) ≤ f := by
          simp [sizeElems] at hsize ⊢
          omega
        have hshape : ws ++ (encElems (x :: y :: ys) ++ ']' :: rest)
            = ws ++ (encJv x ++ (',' :: ' ' :: (encElems (y :: ys) ++ ']' :: rest))) := by
          simp [encElems]
        rw [pe_succ, hshape,
          ihP ws x (',' :: ' ' :: (encElems (y :: ys) ++ ']' :: rest)) hws rfl hsx,
          Option.some_bind]
        rw [skipWs_cons_ne ',' _ (by decide), peAfter_comma]
        have hs : ' ' :: (encElems (y :: ys) ++ ']' :: rest)
            = [' '] ++ (encElems (y :: ys) ++ ']' :: rest) := rfl
        rw [hs, ihQ [' '] y ys rest (Or.inr rfl) hsy]
        rfl
    · intro ws kv fs rest hws hsize
      obtain ⟨k, v⟩ := kv
      have hsv : sizeJv v ≤ f := by
        simp [sizeFields] at hsize
        omega
      cases fs with
      | nil =>
        have hshape : ws ++ (encFields [(k, v)] ++ rcurly :: rest)
            = ws ++ ('"' :: (k.data.flatMap escapeChar
                ++ '"' :: (':' :: (' ' :: (encJv v ++ rcurly :: rest))))) := by
          simp [encFields, encStr]
        rw [pf_succ, hshape, skipWs_wsOpt ws _ hws, skipWs_cons_ne '"' _ (by decide),
          pfStart_quote, parseStringBody_escape, Option.some_bind]
        rw [skipWs_cons_ne ':' _ (by decide), pfAfterKey_colon]
        have hs : (' ' :: (encJv v ++ rcurly :: rest))
            = [' '] ++ (encJv v ++ rcurly :: rest) := rfl
        have hnd : noDigitStart (rcurly :: rest) = true := rfl
        rw [hs, ihP [' '] v (rcurly :: rest) (Or.inr rfl) hnd hsv, Option.some_bind]
        rw [skipWs_cons_ne rcurly _ (by decide), pfAfterVal_rcurly]
      | cons kv2 fs2 =>
        have hsf : sizeFields (kv2 :: fs2) ≤ f := by
          simp [sizeFields] at hsize ⊢
          omega
        have hshape : ws ++ (encFields ((k, v) :: kv2 :: fs2) ++ rcurly :: rest)
            = ws ++ ('"' :: (k.data.flatMap escapeChar
                ++ '"' :: (':' :: (' ' :: (encJv v
                  ++ ',' :: (' ' :: (encFields (kv2 :: fs2) ++ rcurly :: rest))))))) := by
          simp [encFields, encStr]
        rw [pf_succ, hshape, skipWs_wsOpt ws _ hws, skipWs_cons_ne '"' _ (by decide),
          pfStart_quote, parseStringBody_escape, Option.some_bind]
        rw [skipWs_cons_ne ':' _ (by decide), pfAfterKey_colon]
        have hs : (' ' :: (encJv v ++ ',' :: (' ' :: (encFields (kv2 :: fs2) ++ rcurly :: rest))))
            = [' '] ++ (encJv v ++ ',' :: (' ' :: (encFields (kv2 :: fs2) ++ rcurly :: rest))) :=
          rfl
        rw [hs,
          ihP [' '] v (',' :: (' ' :: (encFields (kv2 :: fs2) ++ rcurly :: rest)))
            (Or.inr rfl) rfl hsv,
          Option.some_bind]
        rw [skipWs_cons_ne ',' _ (by decide), pfAfterVal_comma]
        have hs2 : (' ' :: (encFields (kv2 :: fs2) ++ rcurly :: rest))
            = [' '] ++ (encFields (kv2 :: fs2) ++ rcurly :: rest) := rfl
        rw [hs2, ihR [' '] kv2 fs2 rest (Or.inr rfl) hsf]
        rw [string_mk_data]
        rfl

theorem encStr_length (k : String) : (encStr k).length = (k.data.flatMap escapeChar).length + 2 := by
  simp [encStr]

mutual

theorem sizeJv_le_enc (v : Jv) : sizeJv v ≤ (encJv v).length := by
  cases v with
  | null => decide
  | bool b => cases b <;> decide
  | num i =>
    obtain ⟨c, cs, he, -⟩ := encJv_head (.num i)
    rw [he]
    simp [sizeJv]
  | str s =>
    obtain ⟨c, cs, he, -⟩ := encJv_head (.str s)
    rw [he]
    simp [sizeJv]
  | arr xs =>
    cases xs with
    | nil => decide
    | cons x xs =>
      have ih := sizeElems_le_enc x xs
      simp only [sizeJv, encJv, List.length_cons, List.length_append]
      simp at ih ⊢
      omega
  | obj fs =>
    cases fs with
    | nil => decide
    | cons kv fs =>
      have ih := sizeFields_le_enc kv fs
      simp only [sizeJv, encJv, List.length_cons, List.length_append]
      simp at ih ⊢
      omega
termination_by sizeJv v
decreasing_by all_goals (simp [sizeJv, sizeElems, sizeFields]; try omega)

theorem sizeElems_le_enc (x : Jv) (xs : List Jv) :
    sizeElems (x :: xs) ≤ (encElems (x :: xs)).length + 1 := by
  cases xs with
  | nil =>
    have ih := sizeJv_le_enc x
    have hpos : 1 ≤ (encJv x).length := by
      obtain ⟨c, cs, he, -⟩ := encJv_head x
      rw [he]
      simp
    simp only [sizeElems, encElems]
    omega
  | cons y ys =>
    have ih1 := sizeJv_le_enc x
    have ih2 := sizeElems_le_enc y ys
    have hd : sizeElems (y :: ys) = 1 + max (sizeJv y) (sizeElems ys) := rfl
    simp only [sizeElems, encElems, List.length_append, List.length_cons]
    omega
termination_by sizeElems (x :: xs)
decreasing_by all_goals (simp [sizeJv, sizeElems, sizeFields]; try omega)

theorem sizeFields_le_enc (kv : String × Jv) (fs : List (String × Jv)) :
    sizeFields (kv :: fs) ≤ (encFields (kv :: fs)).length + 1 := by
  obtain ⟨k, v⟩ := kv
  cases fs with
  | nil =>
    have ih := sizeJv_le_enc v
    simp only [sizeFields, encFields, List.length_append, List.length_cons, encStr_length]
    omega
  | cons kv2 fs2 =>
    have ih1 := sizeJv_le_enc v
    have ih2 := sizeFields_le_enc kv2 fs2
    have hd : sizeFields (kv2 :: fs2) = 1 + max (sizeJv kv2.2) (sizeFields fs2) := rfl
    simp only [sizeFields, encFields, List.length_append, List.length_cons, encStr_length]
    omega
termination_by sizeFields (kv :: fs)
decreasing_by all_goals (simp [sizeJv, sizeElems, sizeFields]; try omega)

end

/-- Python `json.loads (json.dumps v) = v`: the store's serialize/parse
round-trip recovers the parameters exactly. -/
theorem loads_dumps (v : Jv) : loads (dumps v) = some v := by
  have hp := (parse_enc ((encJv v).length + 1)).1 [] v [] (Or.inl rfl) rfl
    (by have := sizeJv_le_enc v; omega)
  simp only [List.nil_append, List.append_nil] at hp
  unfold loads dumps
  have hdata : (String.mk (encJv v)).data = encJv v := rfl
  have hlen : (String.mk (encJv v)).length = (encJv v).length := rfl
  rw [hdata, hlen, hp]
  rfl

/-! ## The metadata store (`RedkaMetadataManager`)

Keys are modelled per kind: each `miladyos:<kind>:<suffix>` family becomes
one association-list field of `Store`, keyed by the suffix. -/

/-- Association-list lookup (a Redis key read). -/
def alookup {β : Type} : List (String × β) → String → Option β
  | [], _ => none
  | (k, v) :: rest, key => if k = key then some v else alookup rest key

/-- Overwrite-or-insert (a Redis key write). -/
def aupsert {β : Type} : List (String × β) → String → β → List (String × β)
  | [], key, v => [(key, v)]
  | (k, w) :: rest, key, v =>
    if k = key then (k, v) :: rest else (k, w) :: aupsert rest key v

/-- Key deletion (`DEL`). -/
def adelete {β : Type} : List (String × β) → String → List (String × β)
  | [], _ => []
  | (k, w) :: rest, key =>
    if k = key then adelete rest key else (k, w) :: adelete rest key

/-- `ZADD`: insert a member or refresh its score. -/
def zadd (z : List (String × Nat)) (member : String) (score : Nat) : List (String × Nat) :=
  aupsert z member score

/-- `ZSCORE`. -/
def zscore (z : List (String × Nat)) (member : String) : Option Nat :=
  alookup z member

/-- `p` sorts no later than `q` in descending `ZRANGE` order: higher score
first, ties broken by reverse-lexicographic member order. -/
def descLE (p q : String × Nat) : Bool :=
  decide (q.2 < p.2) || (decide (p.2 = q.2) && decide (q.1 ≤ p.1))

/-- Insertion into a descending-sorted pair list. -/
def insertDesc (p : String × Nat) : List (String × Nat) → List (String × Nat)
  | [] => [p]
  | q :: qs => if descLE p q then p :: q :: qs else q :: insertDesc p qs

/-- Sort a sorted-set representation into descending rank order. -/
def sortDesc : List (String × Nat) → List (String × Nat)
  | [] => []
  | p :: ps => insertDesc p (sortDesc ps)

/-- `ZRANGE key 0 -1` with `desc=True`: all members, best rank first. -/
def zrangeDescAll (z : List (String × Nat)) : List String :=
  (sortDesc z).map Prod.fst

/-- `ZRANGE key 0 stop` with `desc=True` and a Python-style (possibly
negative) stop index. -/
def zrangeDescStop (z : List (String × Nat)) (stop : Int) : List String :=
  let all := zrangeDescAll z
  let eff : Int := if stop < 0 then (all.length : Int) + stop else stop
  all.take (eff + 1).toNat

/-- `SADD` (sets modelled as duplicate-free lists). -/
def sadd (s : List String) (x : String) : List String :=
  if x ∈ s then s else s ++ [x]

/-- `SREM`. -/
def srem (s : List String) (x : String) : List String :=
  s.filter (· ≠ x)

/-- The `miladyos:execution:<id>` hash.  String fields default to `""`,
which the Python code cannot distinguish from an absent hash field (all
reads go through `.get` with a falsy default or a truthiness guard). -/
structure ExecHash where
  id : String := ""
  deployment_id : String := ""
  template_name : String := ""
  jenkins_job_name : String := ""
  server_name : String := ""
  build_number : String := ""
  parameters : String := ""
  started_at : String := ""
  status : String := ""
  result : String := ""
  duration : String := ""
  finished_at : String := ""
  console_stored : String := ""
  deriving Repr, DecidableEq

/-- The `miladyos:template:<name>` hash.  `version` is stored as a decimal
string in Redis and read back with `int(..., 0 when absent)`; it is
modelled directly as the parsed number, defaulting to `0`. -/
structure TemplateHash where
  name : String := ""
  description : String := ""
  template_path : String := ""
  created_at : String := ""
  updated_at : String := ""
  version : Nat := 0
  deriving Repr, DecidableEq

/-- The whole `miladyos:` keyspace. -/
structure Store where
  executionsZ : List (String × Nat) := []
  templateExecutions : List (String × List (String × Nat)) := []
  jobExecutions : List (String × List (String × Nat)) := []
  statusSets : List (String × List String) := []
  execHashes : List (String × ExecHash) := []
  consoles : List (String × String) := []
  templates : List (String × TemplateHash) := []
  templatesZ : List (String × Nat) := []
  jobIndex : List (String × String) := []
  deriving Repr, DecidableEq

def hashOf (st : Store) (id : String) : Option ExecHash :=
  alookup st.execHashes id

def statusSetOf (st : Store) (s : String) : List String :=
  (alookup st.statusSets s).getD []

def templateExecsOf (st : Store) (t : String) : List (String × Nat) :=
  (alookup st.templateExecutions t).getD []

def jobExecsOf (st : Store) (server job : String) : List (String × Nat) :=
  (alookup st.jobExecutions (server ++ ":" ++ job)).getD []

def saddStatus (st : Store) (s id : String) : Store :=
  { st with statusSets := aupsert st.statusSets s (sadd (statusSetOf st s) id) }

def sremStatus (st : Store) (s id : String) : Store :=
  { st with statusSets := aupsert st.statusSets s (srem (statusSetOf st s) id) }

def zaddTemplateExec (st : Store) (t id : String) (score : Nat) : Store :=
  { st with
    templateExecutions :=
      aupsert st.templateExecutions t (zadd (templateExecsOf st t) id score) }

def zaddJobExec (st : Store) (server job id : String) (score : Nat) : Store :=
  { st with
    jobExecutions :=
      aupsert st.jobExecutions (server ++ ":" ++ job)
        (zadd (jobExecsOf st server job) id score) }

def setConsole (st : Store) (id text : String) : Store :=
  { st with consoles := aupsert st.consoles id text }

def delConsole (st : Store) (id : String) : Store :=
  { st with consoles := adelete st.consoles id }

/-- `RedkaMetadataManager.record_execution`.  The fresh UUID and the two
clock readings (`datetime.now().isoformat()` and `time.time()`) are inputs
of the embedding.  `parameters` is the caller's dict (`None` becomes the
empty dict, which serializes identically). -/
def record_execution (st : Store) (execution_id now : String) (now_ts : Nat)
    (deployment_id template_name jenkins_job_name server_name : String)
    (build_number : Option Nat) (parameters : List (String × Jv)) :
    Store × ExecHash :=
  let deployment_id :=
    if deployment_id = "" ∧ template_name ≠ "" ∧ jenkins_job_name ≠ "" ∧ server_name ≠ "" then
      (alookup st.jobIndex (server_name ++ ":" ++ jenkins_job_name)).getD ""
    else deployment_id
  let execution_info : ExecHash :=
    { id := execution_id
      deployment_id := deployment_id
      template_name := template_name
      jenkins_job_name := jenkins_job_name
      server_name := server_name
      build_number := match build_number with | some n => toString n | none => ""
      parameters := dumps (.obj parameters)
      started_at := now
      status := "running"
      result := ""
      duration := ""
      finished_at := "" }
  let st := { st with
    execHashes :=
      aupsert (adelete st.execHashes execution_id) execution_id execution_info }
  let st := { st with executionsZ := zadd st.executionsZ execution_id now_ts }
  let st := if template_name ≠ "" then zaddTemplateExec st template_name execution_id now_ts
    else st
  let st := if jenkins_job_name ≠ "" ∧ server_name ≠ "" then
      zaddJobExec st server_name jenkins_job_name execution_id now_ts
    else st
  let st := saddStatus st "running" execution_id
  (st, execution_info)

/-- `RedkaMetadataManager.update_execution_status`.  `result = ""`,
`console_output = ""` and `duration = 0` model the falsy Python arguments
(`None`, `""`, `0`), which the source skips with `if result:` etc. -/
def update_execution_status (st : Store) (execution_id status result console_output : String)
    (duration : Nat) (now : String) (now_ts : Nat) : Store × ExecHash :=
  let st :=
    match hashOf st execution_id with
    | some _ => st
    | none => { st with
        execHashes :=
          aupsert st.execHashes execution_id
            { id := execution_id, status := "unknown", started_at := now } }
  let execution_info := (hashOf st execution_id).getD {}
  let st :=
    if console_output ≠ "" then setConsole (delConsole st execution_id) execution_id console_output
    else st
  let h := { execution_info with status := status }
  let h := if result ≠ "" then { h with result := result } else h
  let h := if duration ≠ 0 then { h with duration := toString duration } else h
  let h := if status = "complete" ∨ status = "failed" then { h with finished_at := now } else h
  let h := if console_output ≠ "" then { h with console_stored := "true" } else h
  let st := { st with execHashes := aupsert st.execHashes execution_id h }
  let old_status := execution_info.status
  let st :=
    if status ≠ old_status then
      let st := { st with executionsZ := zadd st.executionsZ execution_id now_ts }
      let st := if old_status ≠ "" then sremStatus st old_status execution_id else st
      saddStatus st status execution_id
    else st
  let updated := (hashOf st execution_id).getD {}
  let st := if updated.template_name ≠ "" then
      zaddTemplateExec st updated.template_name execution_id now_ts
    else st
  let st := if updated.jenkins_job_name ≠ "" ∧ updated.server_name ≠ "" then
      zaddJobExec st updated.server_name updated.jenkins_job_name execution_id now_ts
    else st
  (st, updated)

/-- Prefix test on character lists. -/
def listStartsWith : List Char → List Char → Bool
  | _, [] => true
  | [], _ :: _ => false
  | c :: cs, d :: ds => c = d && listStartsWith cs ds

/-- Infix test on character lists. -/
def listContains (needle : List Char) : List Char → Bool
  | [] => needle.isEmpty
  | c :: rest => listStartsWith (c :: rest) needle || listContains needle rest

/-- Substring test (Python's `needle in haystack`). -/
def containsSub (hay needle : String) : Bool :=
  listContains needle.data hay.data

/-- Fallback console file path used by `get_execution`
(note: the source hardcodes the `metadata/` directory here). -/
def consolePath (execution_id : String) : String :=
  "metadata/console_" ++ execution_id ++ ".txt"

/-- What `RedkaMetadataManager.get_execution` hands back: the hash fields
plus the extra keys the method may add to the returned dict. -/
structure GetResult where
  hash : ExecHash
  console_file : Option String := none
  message : Option String := none
  console_output : Option String := none
  params : Option Jv := none
  deriving Repr

/-- `RedkaMetadataManager.get_execution`.  The filesystem is an input
(path ↦ contents); reads of existing files succeed.  `Except.error`
models the final `raise ValueError`; every other path returns a record.
The returned store reflects the method's transparent console
repopulation. -/
def get_execution (st : Store) (fs : List (String × String)) (execution_id : String) :
    Except String GetResult × Store :=
  match hashOf st execution_id with
  | none =>
    match alookup fs (consolePath execution_id) with
    | some content =>
      let st := setConsole st execution_id content
      let base : ExecHash := { id := execution_id, status := "unknown" }
      let hash :=
        if containsSub content "SUCCESS" ∧ containsSub content "Finished: SUCCESS" then
          { base with status := "complete", result := "SUCCESS" }
        else if containsSub content "FAILURE" ∧ containsSub content "Finished: FAILURE" then
          { base with status := "failed", result := "FAILURE" }
        else base
      (.ok { hash := hash
             console_file := some (consolePath execution_id)
             message := some "Execution metadata recovered from local file"
             console_output := some content }, st)
    | none => (.error ("Execution not found: " ++ execution_id), st)
  | some h =>
    let params : Option Jv :=
      if h.parameters ≠ "" then some ((loads h.parameters).getD (.obj [])) else none
    match alookup st.consoles execution_id with
    | some text => (.ok { hash := h, params := params, console_output := some text }, st)
    | none =>
      if h.console_stored = "true" then
        match alookup fs (consolePath execution_id) with
        | some content =>
          (.ok { hash := h, params := params, console_output := some content },
            setConsole st execution_id content)
        | none =>
          (.ok { hash := h, params := params
                 console_output :=
                   some "Console output was recorded but is no longer available in Redis." },
            st)
      else (.ok { hash := h, params := params }, st)

/-- Python list slicing `l[:limit]` for a possibly negative limit. -/
def pyTake (limit : Int) (l : List String) : List String :=
  if 0 ≤ limit then l.take limit.toNat
  else l.take ((l.length : Int) + limit).toNat

/-- The id-selection logic of `RedkaMetadataManager.list_executions`
(the four filter combinations), before per-id detail fetching. -/
def listExecutionIds (st : Store) (template_name : Option String) (limit : Int)
    (status : Option String) : List String :=
  match template_name, status with
  | some t, some s =>
    let status_ids := statusSetOf st s
    let template_ids := zrangeDescAll (templateExecsOf st t)
    pyTake limit (template_ids.filter (· ∈ status_ids))
  | some t, none => zrangeDescStop (templateExecsOf st t) (limit - 1)
  | none, some s =>
    let status_ids := statusSetOf st s
    if status_ids ≠ [] then
      pyTake limit ((zrangeDescAll st.executionsZ).filter (· ∈ status_ids))
    else []
  | none, none => zrangeDescStop st.executionsZ (limit - 1)

/-- `RedkaMetadataManager.list_executions`: select ids, then fetch each
record with `get_execution`, skipping ids whose fetch raises. -/
def list_executions (st : Store) (fs : List (String × String)) (template_name : Option String)
    (limit : Int) (status : Option String) : List GetResult × Store :=
  (listExecutionIds st template_name limit status).foldl
    (fun acc eid =>
      match get_execution acc.2 fs eid with
      | (.ok r, st') => (acc.1 ++ [r], st')
      | (.error _, st') => (acc.1, st'))
    ([], st)

/-! ## Template metadata (`update_template`, `increment_template_version`)
and the `edit_template` tool branch of `MiladyOSToolServer._execute_tool`. -/

/-- Rewrite (or insert) the `// Description:` line of a Jenkinsfile, as
`update_template` does after updating the store. -/
def rewriteDescription (content description : String) : String :=
  let lines := content.splitOn "\n"
  let newLine := "// Description: " ++ description
  let updated := lines.any fun l => l.trim.startsWith "// Description:"
  let lines1 := lines.map fun l => if l.trim.startsWith "// Description:" then newLine else l
  let lines2 :=
    if ¬ updated ∧ 0 < lines1.length then
      match lines1 with
      | [] => [newLine]
      | first :: rest =>
        if first.startsWith "//" then first :: newLine :: rest else newLine :: first :: rest
    else lines1
  String.intercalate "\n" lines2

/-- Jenkinsfile path of a template. -/
def templatePath (templates_dir template_name : String) : String :=
  templates_dir ++ "/" ++ template_name ++ ".Jenkinsfile"

/-- `RedkaMetadataManager.update_template`: bump version, replace the
description and `updated_at`, refresh the catalog score, and rewrite the
description line in the on-disk Jenkinsfile.  `Except.error` models the
`ValueError` on an unregistered template. -/
def update_template (st : Store) (fs : List (String × String))
    (templates_dir template_name description now : String) (now_ts : Nat) :
    Except String (Store × List (String × String) × TemplateHash) :=
  match alookup st.templates template_name with
  | none => .error ("Template not found: " ++ template_name)
  | some t =>
    let version := t.version + 1
    let t2 := { t with description := description, version := version, updated_at := now }
    let st := { st with
      templates := aupsert st.templates template_name t2
      templatesZ := zadd st.templatesZ template_name now_ts }
    let path := templatePath templates_dir template_name
    let fs :=
      match alookup fs path with
      | none => fs
      | some content => aupsert fs path (rewriteDescription content description)
    .ok (st, fs, t2)

/-- `RedkaMetadataManager.increment_template_version`: bump the version
without touching the description or the file. -/
def increment_template_version (st : Store) (template_name now : String) (now_ts : Nat) :
    Except String (Store × TemplateHash) :=
  match alookup st.templates template_name with
  | none => .error ("Template not found: " ++ template_name)
  | some t =>
    let t2 := { t with version := t.version + 1, updated_at := now }
    .ok ({ st with
      templates := aupsert st.templates template_name t2
      templatesZ := zadd st.templatesZ template_name now_ts }, t2)

/-- Model of `difflib.unified_diff` output: the diff is a function of the
two texts compared; its line-level contents are not modelled. -/
structure DiffResult where
  fromText : String
  toText : String
  deriving Repr, DecidableEq

/-- Response of the `edit_template` tool branch. -/
structure EditResponse where
  success : Bool
  status : String
  template_name : String := ""
  error : String := ""
  message : String := ""
  diff : Option DiffResult := none
  version : Option Nat := none
  deriving Repr, DecidableEq

/-- The `edit_template` branch of `MiladyOSToolServer._execute_tool`
(miladyos_mcp.py).  `content = ""` and `description = ""` model the falsy
argument values (absent or empty).  Returns the tool response together
with the store and filesystem after the call. -/
def edit_template (st : Store) (fs : List (String × String))
    (templates_dir template_name content : String) (diff_preview : Bool)
    (description now : String) (now_ts : Nat) :
    EditResponse × Store × List (String × String) :=
  if template_name = "" then
    ({ success := false, status := "error", error := "template_name is required" }, st, fs)
  else if content = "" then
    ({ success := false, status := "error", error := "content is required" }, st, fs)
  else
    match alookup fs (templatePath templates_dir template_name) with
    | none =>
      ({ success := false, status := "error", template_name := template_name
         error := "Template " ++ template_name ++ " does not exist" }, st, fs)
    | some existing =>
      if diff_preview then
        ({ success := true, template_name := template_name, status := "preview"
           diff := some { fromText := existing, toText := content }
           message := "Diff preview generated" }, st, fs)
      else
        let fs := aupsert fs (templatePath templates_dir template_name) content
        if description ≠ "" then
          match update_template st fs templates_dir template_name description now now_ts with
          | .ok (st2, fs2, t2) =>
            ({ success := true, template_name := template_name, status := "success"
               message := "Template " ++ template_name ++ " updated successfully"
               version := some t2.version }, st2, fs2)
          | .error e =>
            ({ success := false, status := "error", template_name := template_name
               error := "Error editing template: " ++ e }, st, fs)
        else
          match increment_template_version st template_name now now_ts with
          | .ok (st2, t2) =>
            ({ success := true, template_name := template_name, status := "success"
               message := "Template " ++ template_name ++ " updated successfully"
               version := some t2.version }, st2, fs)
          | .error e =>
            ({ success := false, status := "error", template_name := template_name
               error := "Error editing template: " ++ e }, st, fs)

/-! ## Jenkins client (`JenkinsUtils` in miladyos_mcp.py) -/

/-- One polling round of `stream_job_output`, as observed from the remote
server: the `get_build_info` call raises (`err`), or returns build info
with its `building` flag, optional `result` field, and the outcome of the
follow-up `get_build_console_output` call (`none` models a raised console
fetch, which the inner handler swallows). -/
inductive PollResult where
  | err : PollResult
  | info (building : Bool) (result : Option String) (console : Option String) : PollResult

/-- Loop state of `stream_job_output`: next poll index, retry counter,
console byte offset, accumulated chunks. -/
structure StreamState where
  pollIdx : Nat := 0
  retries : Nat := 0
  offset : Nat := 0
  chunks : List String := []
  deriving Repr, DecidableEq

/-- The record `stream_job_output` returns. -/
structure StreamResult where
  job_name : String
  build_number : Nat
  status : String
  console_output : String
  complete : Bool
  deriving Repr, DecidableEq

/-- The timeout marker appended to the accumulated console output. -/
def timeoutMarker : String :=
  "\n[TIMEOUT: Job took too long to complete or there was an error accessing the build]"

/-- One iteration of the `while retries < max_retries` loop of
`JenkinsUtils.stream_job_output` (`max_retries = 60`): either a new loop
state or the returned record.  Note the source increments `retries` only
in the exception handler. -/
def streamStep (oracle : Nat → PollResult) (job_name : String) (build_number : Nat)
    (s : StreamState) : StreamState ⊕ StreamResult :=
  if s.retries < 60 then
    match oracle s.pollIdx with
    | .err => .inl { s with pollIdx := s.pollIdx + 1, retries := s.retries + 1 }
    | .info true _ console =>
      match console with
      | none => .inl { s with pollIdx := s.pollIdx + 1 }
      | some full =>
        let newOut := full.drop s.offset
        if newOut ≠ "" then
          .inl { s with
            pollIdx := s.pollIdx + 1
            offset := s.offset + newOut.length
            chunks := s.chunks ++ [newOut] }
        else .inl { s with pollIdx := s.pollIdx + 1 }
    | .info false result console =>
      let chunks :=
        match console with
        | none => s.chunks
        | some full =>
          let newOut := full.drop s.offset
          if newOut ≠ "" then s.chunks ++ [newOut] else s.chunks
      .inr { job_name := job_name, build_number := build_number
             status := result.getD "UNKNOWN"
             console_output := String.join chunks
             complete := true }
  else
    .inr { job_name := job_name, build_number := build_number
           status := "TIMEOUT"
           console_output := String.join s.chunks ++ timeoutMarker
           complete := false }

/-- Fueled runner for the streaming loop: `none` means the loop has not
returned within `fuel` iterations.  The source loop itself has no fuel;
`stream_job_output` terminates exactly when some finite fuel suffices. -/
def streamRun (oracle : Nat → PollResult) (job_name : String) (build_number : Nat) :
    Nat → StreamState → Option StreamResult
  | 0, _ => none
  | fuel + 1, s =>
    match streamStep oracle job_name build_number s with
    | .inr r => some r
    | .inl s2 => streamRun oracle job_name build_number fuel s2

/-- `JenkinsUtils.stream_job_output`, observed through `fuel` loop
iterations from the initial state. -/
def stream_job_output (oracle : Nat → PollResult) (job_name : String) (build_number : Nat)
    (fuel : Nat) : Option StreamResult :=
  streamRun oracle job_name build_number fuel {}

/-- Remote behaviour visible to `JenkinsUtils.start_jenkins_job`:
the `job_exists` probe, the `build_job` trigger (returning a queue
number), and the queue poll per attempt (`executable.number` when
present).  `Except.error ()` models a raised exception. -/
structure JenkinsServer where
  jobExists : Except Unit Bool
  buildJob : Except Unit Nat
  queueItem : Nat → Except Unit (Option Nat)

/-- The record `start_jenkins_job` returns (it never raises). -/
inductive StartResult where
  | error (msg : String) (job_name : String) : StartResult
  | started (queue_number : Nat) (build_number : Nat) : StartResult
  | queued (queue_number : Nat) (message : String) : StartResult
  deriving Repr, DecidableEq

/-- The `status` field of the returned record. -/
def StartResult.statusStr : StartResult → String
  | .error _ _ => "error"
  | .started _ _ => "started"
  | .queued _ _ => "queued"

/-- The `while retry_count < max_retries` queue-resolution loop
(`max_retries = 30`): a poll exception or a missing executable both just
consume one retry. -/
def pollQueue (queueItem : Nat → Except Unit (Option Nat)) : Nat → Nat → Option Nat
  | _, 0 => none
  | i, fuel + 1 =>
    match queueItem i with
    | .ok (some n) => some n
    | _ => pollQueue queueItem (i + 1) fuel

/-- `JenkinsUtils.start_jenkins_job`.  A raised `job_exists` is swallowed
("try to continue anyway"); a raised `build_job` reaches the outer
handler, which converts it to an error record. -/
def start_jenkins_job (srv : JenkinsServer) (job_name : String) : StartResult :=
  match srv.jobExists with
  | .ok false => .error ("Job " ++ job_name ++ " does not exist") job_name
  | _ =>
    match srv.buildJob with
    | .error _ => .error ("Error starting job: " ++ "exception") job_name
    | .ok queue_number =>
      match pollQueue srv.queueItem 0 30 with
      | some build_number => .started queue_number build_number
      | none => .queued queue_number "Job is still in queue after waiting period"

/-! ## The queued branch of the `run_pipeline` tool
(`MiladyOSToolServer._execute_tool`, miladyos_mcp.py lines 1616-1647). -/

/-- The tool response returned when the job is still in the queue. -/
structure RunQueuedResponse where
  success : Bool
  template_name : String
  job_name : String
  server_name : String
  queue_number : Option Nat
  execution_id : String
  status : String
  message : String
  deriving Repr, DecidableEq

/-- The queued branch: record an execution with `build_number=None`, then
return a `status="queued"` response carrying the new execution id. -/
def run_pipeline_queued_branch (st : Store) (template_name job_name server_name : String)
    (pipeline_params : List (String × Jv)) (queue_number : Option Nat)
    (execution_id now : String) (now_ts : Nat) : RunQueuedResponse × Store :=
  let (st2, info) := record_execution st execution_id now now_ts ""
    template_name job_name server_name none pipeline_params
  ({ success := true
     template_name := template_name
     job_name := job_name
     server_name := server_name
     queue_number := queue_number
     execution_id := info.id
     status := "queued"
     message := "Successfully queued template " ++ template_name ++ " as job " ++ job_name
       ++ " on server " ++ server_name ++ "." }, st2)

/-! ## Basic store lemmas -/

theorem alookup_aupsert_self {β : Type} (l : List (String × β)) (key : String) (v : β) :
    alookup (aupsert l key v) key = some v := by
  induction l with
  | nil => simp [aupsert, alookup]
  | cons p rest ih =>
    by_cases h : p.1 = key
    · simp [aupsert, alookup, h]
    · simp [aupsert, alookup, h, ih]

theorem alookup_aupsert_ne {β : Type} (l : List (String × β)) (key key' : String) (v : β)
    (h : key ≠ key') : alookup (aupsert l key v) key' = alookup l key' := by
  induction l with
  | nil => simp [aupsert, alookup, h]
  | cons p rest ih =>
    obtain ⟨k, w⟩ := p
    by_cases hk : k = key
    · subst hk
      simp [aupsert, alookup, h]
    · by_cases hk' : k = key'
      · subst hk'
        simp [aupsert, alookup, hk]
      · simp [aupsert, alookup, hk, hk', ih]

theorem alookup_mem {β : Type} (l : List (String × β)) (key : String) (v : β)
    (h : alookup l key = some v) : (key, v) ∈ l := by
  induction l with
  | nil => simp [alookup] at h
  | cons p rest ih =>
    by_cases hp : p.1 = key
    · simp [alookup, hp] at h
      have hpv : (key, v) = p := by
        obtain ⟨a, b⟩ := p
        simp at hp h ⊢
        exact ⟨hp.symm, h.symm⟩
      rw [hpv]
      exact List.mem_cons_self _ _
    · simp [alookup, hp] at h
      exact List.mem_cons_of_mem _ (ih h)

theorem mem_sadd_self (s : List String) (x : String) : x ∈ sadd s x := by
  by_cases h : x ∈ s <;> simp [sadd, h]

theorem mem_sadd (s : List String) (x y : String) : y ∈ sadd s x ↔ y ∈ s ∨ y = x := by
  by_cases h : x ∈ s
  · simp [sadd, h]
    intro hy
    rw [hy]
    exact h
  · simp [sadd, h]

theorem not_mem_srem_self (s : List String) (x : String) : x ∉ srem s x := by
  simp [srem]

theorem mem_srem_ne (s : List String) (x y : String) (h : y ≠ x) :
    y ∈ srem s x ↔ y ∈ s := by
  simp [srem, h]

/-! ## C1 — `stream_job_output` never returns when every poll reports
`building=true` (the retry budget only counts exceptions) -/

/-- A remote build that reports `building=true` on every poll and whose
console fetches raise (the handler swallows them). -/
def alwaysBuilding : Nat → PollResult := fun _ => .info true none none

theorem streamRun_alwaysBuilding (job : String) (bn : Nat) (fuel : Nat) :
    ∀ s : StreamState, s.retries < 60 →
      streamRun alwaysBuilding job bn fuel s = none := by
  induction fuel with
  | zero => intro s _; rfl
  | succ fuel ih =>
    intro s hs
    rw [streamRun]
    have hstep : streamStep alwaysBuilding job bn s
        = .inl { s with pollIdx := s.pollIdx + 1 } := by
      simp [streamStep, alwaysBuilding, hs]
    rw [hstep]
    exact ih _ hs

/-- C1: `stream_job_output` (JenkinsUtils.stream_job_output) does NOT
terminate within any number of loop iterations when the build reports
`building=true` on every poll: `retries` is incremented only in the
`except` handler, so the `retries < max_retries` guard never trips,
contradicting the source's own `max_retries = 60  # 3 minutes max wait
time` comment and the specified ≈60-iteration budget. -/
theorem C1_stream_building_forever_diverges (fuel : Nat) :
    stream_job_output alwaysBuilding "job" 1 fuel = none := by
  exact streamRun_alwaysBuilding "job" 1 fuel {} (by decide)

/-! ## C5 — initial execution status -/

/-- C5 counterexample: `record_execution` with no build number (the
queued branch of `run_pipeline`) stores initial status `"running"`, not
`"queued"`; the tool response says `"queued"` while the stored Execution
says `"running"`. -/
theorem C5_counterexample_initial_status_running :
    (((run_pipeline_queued_branch {} "tmpl" "job" "srv" [] none
        "e1" "2024-01-01T00:00:00" 0).2 |> fun st => (hashOf st "e1").map ExecHash.status)
      = some "running")
    ∧ ((run_pipeline_queued_branch {} "tmpl" "job" "srv" [] none
        "e1" "2024-01-01T00:00:00" 0).1.status = "queued")
    ∧ ("running" : String) ≠ "queued" := by
  refine ⟨?_, rfl, by decide⟩
  rfl

/-- C5 amended: `record_execution` always records the initial status as
`"running"` and adds the id to the `running` status set, whatever the
build number; the recorded `build_number` field is empty exactly when no
build number was supplied.  (`run_pipeline`'s queued branch is the
`build_number = none` instance; its response still reports `"queued"` to
the caller.) -/
theorem C5_record_execution_initial_running (st : Store)
    (eid now : String) (ts : Nat) (dep tmpl job srv : String)
    (bn : Option Nat) (params : List (String × Jv)) :
    ((record_execution st eid now ts dep tmpl job srv bn params).2.status = "running")
    ∧ eid ∈ statusSetOf (record_execution st eid now ts dep tmpl job srv bn params).1 "running"
    ∧ ((record_execution st eid now ts dep tmpl job srv bn params).2.build_number
        = match bn with | some n => toString n | none => "")
    ∧ (hashOf (record_execution st eid now ts dep tmpl job srv bn params).1 eid
        = some (record_execution st eid now ts dep tmpl job srv bn params).2) := by
  refine ⟨rfl, ?_, rfl, ?_⟩
  · simp only [record_execution, saddStatus, statusSetOf, alookup_aupsert_self, Option.getD_some]
    exact mem_sadd_self _ _
  · simp only [record_execution, saddStatus]
    split <;> split <;>
      simp [hashOf, zaddTemplateExec, zaddJobExec, alookup_aupsert_self]

/-! ## C9 — `start_jenkins_job` error behaviour -/

/-- C9: `start_jenkins_job` always returns a structured record (status
`started`, `queued` or `error`; the embedding is total, mirroring the
source's outer exception handler); when the job does not exist it returns
the error record naming the job, and when triggering the build raises it
likewise returns an error record naming the job. -/
theorem C9_start_job_error_record (srv : JenkinsServer) (job : String) :
    ((start_jenkins_job srv job).statusStr = "error"
      ∨ (start_jenkins_job srv job).statusStr = "started"
      ∨ (start_jenkins_job srv job).statusStr = "queued")
    ∧ (srv.jobExists = .ok false →
        start_jenkins_job srv job = .error ("Job " ++ job ++ " does not exist") job)
    ∧ (srv.jobExists ≠ .ok false → srv.buildJob = .error () →
        start_jenkins_job srv job = .error ("Error starting job: " ++ "exception") job) := by
  refine ⟨?_, ?_, ?_⟩
  · unfold start_jenkins_job
    cases hje : srv.jobExists with
    | error e => cases hbj : srv.buildJob with
      | error e2 => simp [StartResult.statusStr]
      | ok q => cases hpq : pollQueue srv.queueItem 0 30 <;> simp [hpq, StartResult.statusStr]
    | ok b =>
      cases b with
      | false => simp [StartResult.statusStr]
      | true => cases hbj : srv.buildJob with
        | error e2 => simp [StartResult.statusStr]
        | ok q => cases hpq : pollQueue srv.queueItem 0 30 <;> simp [hpq, StartResult.statusStr]
  · intro h
    unfold start_jenkins_job
    rw [h]
  · intro hje hbj
    unfold start_jenkins_job
    cases hje2 : srv.jobExists with
    | error e => rw [hbj]
    | ok b =>
      cases b with
      | false => exact absurd hje2 hje
      | true => rw [hbj]

/-- C9 witness: a server where the job does not exist yields the error
record, via the theorem. -/
theorem C9_start_job_error_record_witness :
    start_jenkins_job
        { jobExists := .ok false, buildJob := .ok 7, queueItem := fun _ => .ok none }
        "deploy-app"
      = .error ("Job " ++ "deploy-app" ++ " does not exist") "deploy-app" :=
  (C9_start_job_error_record
    { jobExists := .ok false, buildJob := .ok 7, queueItem := fun _ => .ok none }
    "deploy-app").2.1 rfl

theorem hashOf_ite (c : Prop) [Decidable c] (a b : Store) (id : String) :
    hashOf (if c then a else b) id = if c then hashOf a id else hashOf b id :=
  apply_ite (fun s => hashOf s id) c a b

theorem hashOf_saddStatus (st : Store) (s i id : String) :
    hashOf (saddStatus st s i) id = hashOf st id := rfl

theorem hashOf_sremStatus (st : Store) (s i id : String) :
    hashOf (sremStatus st s i) id = hashOf st id := rfl

theorem hashOf_zaddTemplateExec (st : Store) (t i : String) (sc : Nat) (id : String) :
    hashOf (zaddTemplateExec st t i sc) id = hashOf st id := rfl

theorem hashOf_zaddJobExec (st : Store) (sv j i : String) (sc : Nat) (id : String) :
    hashOf (zaddJobExec st sv j i sc) id = hashOf st id := rfl

theorem hashOf_setConsole (st : Store) (i t id : String) :
    hashOf (setConsole st i t) id = hashOf st id := rfl

theorem hashOf_delConsole (st : Store) (i id : String) :
    hashOf (delConsole st i) id = hashOf st id := rfl

theorem execHashes_ite (c : Prop) [Decidable c] (a b : Store) (id : String) :
    alookup (if c then a else b).execHashes id
      = if c then alookup a.execHashes id else alookup b.execHashes id :=
  apply_ite (fun s : Store => alookup s.execHashes id) c a b

theorem execHashes_saddStatus (st : Store) (s i : String) :
    (saddStatus st s i).execHashes = st.execHashes := rfl

theorem execHashes_sremStatus (st : Store) (s i : String) :
    (sremStatus st s i).execHashes = st.execHashes := rfl

theorem execHashes_zaddTemplateExec (st : Store) (t i : String) (sc : Nat) :
    (zaddTemplateExec st t i sc).execHashes = st.execHashes := rfl

theorem execHashes_zaddJobExec (st : Store) (sv j i : String) (sc : Nat) :
    (zaddJobExec st sv j i sc).execHashes = st.execHashes := rfl

theorem execHashes_setConsole (st : Store) (i t : String) :
    (setConsole st i t).execHashes = st.execHashes := rfl

theorem execHashes_delConsole (st : Store) (i : String) :
    (delConsole st i).execHashes = st.execHashes := rfl

/-! ## C10 — falsy optional arguments of `update_execution_status` -/

/-- C10: with `result=""`, `duration=0` (and no console output), the
update changes only `status` and — exactly for the terminal statuses
`complete`/`failed` — `finished_at`; the stored `result` and `duration`
fields are left unchanged. -/
theorem C10_update_falsy_args_ignored (st : Store) (id S now : String) (ts : Nat)
    (h0 : ExecHash) (h : hashOf st id = some h0) :
    hashOf (update_execution_status st id S "" "" 0 now ts).1 id
      = some { h0 with
          status := S
          finished_at := if S = "complete" ∨ S = "failed" then now else h0.finished_at } := by
  have h2 : alookup st.execHashes id = some h0 := h
  by_cases hterm : S = "complete" ∨ S = "failed"
  · by_cases hso : S = h0.status
    · have ht2 : h0.status = "complete" ∨ h0.status = "failed" := by
        rw [← hso]
        exact hterm
      simp [update_execution_status, h, h2, hterm, ht2, hso, hashOf_ite, hashOf_saddStatus,
        hashOf_sremStatus, hashOf_zaddTemplateExec, hashOf_zaddJobExec, hashOf_setConsole,
        hashOf_delConsole, hashOf, alookup_aupsert_self, execHashes_ite, execHashes_saddStatus,
        execHashes_sremStatus, execHashes_zaddTemplateExec, execHashes_zaddJobExec,
        execHashes_setConsole, execHashes_delConsole]
    · simp [update_execution_status, h, h2, hterm, hso, hashOf_ite, hashOf_saddStatus,
        hashOf_sremStatus, hashOf_zaddTemplateExec, hashOf_zaddJobExec, hashOf_setConsole,
        hashOf_delConsole, hashOf, alookup_aupsert_self, execHashes_ite, execHashes_saddStatus,
        execHashes_sremStatus, execHashes_zaddTemplateExec, execHashes_zaddJobExec,
        execHashes_setConsole, execHashes_delConsole]
  · by_cases hso : S = h0.status
    · have ht2 : ¬(h0.status = "complete" ∨ h0.status = "failed") := by
        rw [← hso]
        exact hterm
      simp [update_execution_status, h, h2, hterm, ht2, hso, hashOf_ite, hashOf_saddStatus,
        hashOf_sremStatus, hashOf_zaddTemplateExec, hashOf_zaddJobExec, hashOf_setConsole,
        hashOf_delConsole, hashOf, alookup_aupsert_self, execHashes_ite, execHashes_saddStatus,
        execHashes_sremStatus, execHashes_zaddTemplateExec, execHashes_zaddJobExec,
        execHashes_setConsole, execHashes_delConsole]
    · simp [update_execution_status, h, h2, hterm, hso, hashOf_ite, hashOf_saddStatus,
        hashOf_sremStatus, hashOf_zaddTemplateExec, hashOf_zaddJobExec, hashOf_setConsole,
        hashOf_delConsole, hashOf, alookup_aupsert_self, execHashes_ite, execHashes_saddStatus,
        execHashes_sremStatus, execHashes_zaddTemplateExec, execHashes_zaddJobExec,
        execHashes_setConsole, execHashes_delConsole]

/-- Concrete execution hash for the C10 witness. -/
def c10Hash : ExecHash :=
  { id := "e1"
    status := "running"
    result := "SUCCESS"
    duration := "1200"
    started_at := "t0" }

/-- Concrete store for the C10 witness. -/
def c10Store : Store :=
  { execHashes := [("e1", c10Hash)]
    statusSets := [("running", ["e1"])] }

/-- C10 witness: a concrete running execution updated to `complete` with
falsy `result`/`duration` keeps its stored result and duration. -/
theorem C10_update_falsy_args_ignored_witness :
    hashOf (update_execution_status c10Store "e1" "complete" "" "" 0 "t9" 9).1 "e1"
      = some { c10Hash with
          status := "complete"
          finished_at := if ("complete" : String) = "complete" ∨ ("complete" : String) = "failed"
            then "t9" else c10Hash.finished_at } :=
  C10_update_falsy_args_ignored c10Store "e1" "complete" "t9" 9 c10Hash (by rfl)

/-! ## C7 — `edit_template` with `diff_preview=true` is effect-free -/

/-- C7 counterexample: with an empty `content` argument the tool returns
the `content is required` error record, not a `"preview"` record (the
Jenkinsfile is still untouched), so the claim does not hold for *every*
content argument. -/
theorem C7_counterexample_empty_content :
    (edit_template {} [("templates/demo.Jenkinsfile", "old-text")]
        "templates" "demo" "" true "" "t" 0)
      = ({ success := false, status := "error", error := "content is required" }, {},
          [("templates/demo.Jenkinsfile", "old-text")])
    ∧ ("error" : String) ≠ "preview" := by
  exact ⟨rfl, by decide⟩

/-- C7 amended: for every existing template and every *non-empty*
content, `edit_template` with `diff_preview=true` returns the whole
triple unchanged except for the response: the store (hence the stored
version) and the filesystem are exactly the inputs, and the response has
status `"preview"` with a diff of the on-disk text against the new text.
(With empty content the disk is also untouched, but the status is
`"error"`.) -/
theorem C7_edit_template_preview_frame (st : Store) (fs : List (String × String))
    (dir name content desc now : String) (ts : Nat) (old : String)
    (hname : name ≠ "") (hcontent : content ≠ "")
    (hfs : alookup fs (templatePath dir name) = some old) :
    edit_template st fs dir name content true desc now ts
      = ({ success := true
           template_name := name
           status := "preview"
           diff := some { fromText := old, toText := content }
           message := "Diff preview generated" }, st, fs) := by
  simp [edit_template, hname, hcontent, hfs]

/-- C7 witness: a concrete preview call returns the frame-preserving
preview record. -/
theorem C7_edit_template_preview_frame_witness :
    edit_template {} [("templates/demo.Jenkinsfile", "old-text")]
        "templates" "demo" "new-text" true "" "t" 0
      = ({ success := true
           template_name := "demo"
           status := "preview"
           diff := some { fromText := "old-text", toText := "new-text" }
           message := "Diff preview generated" }, {},
          [("templates/demo.Jenkinsfile", "old-text")]) :=
  C7_edit_template_preview_frame {} [("templates/demo.Jenkinsfile", "old-text")]
    "templates" "demo" "new-text" "" "t" 0 "old-text"
    (by decide) (by decide) (by rfl)

/-! ## C6 — `edit_template` without preview bumps the version by one -/

/-- C6: a successful `edit_template` call without `diff_preview`
increments the stored template version by exactly 1, both when a new
description is supplied (via `update_template`) and when it is not (via
`increment_template_version`). -/
theorem C6_edit_template_version_increment (st : Store) (fs : List (String × String))
    (dir name content desc now : String) (ts : Nat) (old : String) (t : TemplateHash)
    (hname : name ≠ "") (hcontent : content ≠ "")
    (hfs : alookup fs (templatePath dir name) = some old)
    (ht : alookup st.templates name = some t) :
    (edit_template st fs dir name content false desc now ts).1.status = "success"
    ∧ (edit_template st fs dir name content false desc now ts).1.version
        = some (t.version + 1)
    ∧ (alookup (edit_template st fs dir name content false desc now ts).2.1.templates name).map
        TemplateHash.version = some (t.version + 1) := by
  by_cases hdesc : desc = ""
  · simp [edit_template, hname, hcontent, hfs, hdesc, increment_template_version, ht,
      alookup_aupsert_self]
  · simp [edit_template, hname, hcontent, hfs, hdesc, update_template, ht,
      alookup_aupsert_self]

/-- Concrete store for the C6 witness: template `demo` at version 3. -/
def c6Store : Store :=
  { templates := [("demo", { name := "demo", version := 3 })] }

/-- C6 witness: editing `demo` (version 3) without preview yields a
success response carrying version 4, stored back. -/
theorem C6_edit_template_version_increment_witness :
    (edit_template c6Store [("templates/demo.Jenkinsfile", "old-text")]
        "templates" "demo" "new-text" false "" "t" 0).1.status = "success"
    ∧ (edit_template c6Store [("templates/demo.Jenkinsfile", "old-text")]
        "templates" "demo" "new-text" false "" "t" 0).1.version = some (3 + 1)
    ∧ (alookup (edit_template c6Store [("templates/demo.Jenkinsfile", "old-text")]
        "templates" "demo" "new-text" false "" "t" 0).2.1.templates "demo").map
        TemplateHash.version = some (3 + 1) :=
  C6_edit_template_version_increment c6Store [("templates/demo.Jenkinsfile", "old-text")]
    "templates" "demo" "new-text" "" "t" 0 "old-text" { name := "demo", version := 3 }
    (by decide) (by decide) (by rfl) (by rfl)

/-! ## C8 — parameters survive the store round-trip -/

/-- Status field of a `get_execution` outcome. -/
def getStatus? (x : Except String GetResult) : Option String :=
  match x with
  | .ok r => some r.hash.status
  | .error _ => none

/-- Console output of a `get_execution` outcome. -/
def getConsole? (x : Except String GetResult) : Option String :=
  match x with
  | .ok r => r.console_output
  | .error _ => none

/-- Decoded parameters of a `get_execution` outcome. -/
def getParams? (x : Except String GetResult) : Option Jv :=
  match x with
  | .ok r => r.params
  | .error _ => none

/-- Whether `get_execution` returned (instead of raising). -/
def isOkE (x : Except String GetResult) : Bool :=
  match x with
  | .ok _ => true
  | .error _ => false

theorem dumps_ne_empty (v : Jv) : dumps v ≠ "" := by
  obtain ⟨c, cs, he, -⟩ := encJv_head v
  simp [dumps, he, String.ext_iff]

/-- The hash stored by `record_execution` is the returned record. -/
theorem record_execution_hash (st : Store) (eid now : String) (ts : Nat)
    (dep tmpl job srv : String) (bn : Option Nat) (params : List (String × Jv)) :
    hashOf (record_execution st eid now ts dep tmpl job srv bn params).1 eid
      = some (record_execution st eid now ts dep tmpl job srv bn params).2 := by
  simp only [record_execution, saddStatus]
  split <;> split <;>
    simp [hashOf, zaddTemplateExec, zaddJobExec, alookup_aupsert_self]

/-- C8: the parameters dict passed to `record_execution` is serialized
into the hash and decoded back by `get_execution` into the same
structured object. -/
theorem C8_parameters_roundtrip (st : Store) (fs : List (String × String))
    (eid now : String) (ts : Nat) (dep tmpl job srv : String) (bn : Option Nat)
    (params : List (String × Jv)) :
    getParams?
        (get_execution (record_execution st eid now ts dep tmpl job srv bn params).1 fs eid).1
      = some (.obj params) := by
  have hh := record_execution_hash st eid now ts dep tmpl job srv bn params
  have hpar : (record_execution st eid now ts dep tmpl job srv bn params).2.parameters
      = dumps (.obj params) := rfl
  have hcs : (record_execution st eid now ts dep tmpl job srv bn params).2.console_stored
      = "" := rfl
  cases halc : alookup (record_execution st eid now ts dep tmpl job srv bn params).1.consoles
      eid with
  | some text =>
    simp [get_execution, getParams?, hh, halc, hpar, hcs, dumps_ne_empty, loads_dumps]
  | none =>
    simp [get_execution, getParams?, hh, halc, hpar, hcs, dumps_ne_empty, loads_dumps]

/-! ## C4 — filesystem fallback of `get_execution` -/

/-- C4 counterexample: with an *empty* fallback file, `get_execution`
returns `console_output = ""` — equal to the file contents but not
non-empty, so the claim's "non-empty console_output" fails as stated. -/
theorem C4_counterexample_empty_file :
    getConsole? ((get_execution {} [("metadata/console_e9.txt", "")] "e9").1) = some "" := by
  rfl

/-- C4 amended: for an id with no store record but an existing fallback
file, `get_execution` returns (does not raise) a record whose status is
`complete`, `failed` or `unknown`, whose `console_output` equals the file
contents (hence non-empty exactly when the file is non-empty), and the
store's console key is repopulated with the file contents; `complete` /
`failed` are chosen by the source's token tests on the text
(`"SUCCESS"`/`"Finished: SUCCESS"`, then `"FAILURE"`/`"Finished:
FAILURE"`). -/
theorem C4_get_execution_fallback (st : Store) (fs : List (String × String))
    (id content : String)
    (hmiss : hashOf st id = none)
    (hfile : alookup fs (consolePath id) = some content) :
    isOkE (get_execution st fs id).1 = true
    ∧ (getStatus? (get_execution st fs id).1 = some "complete"
        ∨ getStatus? (get_execution st fs id).1 = some "failed"
        ∨ getStatus? (get_execution st fs id).1 = some "unknown")
    ∧ getConsole? (get_execution st fs id).1 = some content
    ∧ alookup (get_execution st fs id).2.consoles id = some content
    ∧ (containsSub content "SUCCESS" = true ∧ containsSub content "Finished: SUCCESS" = true →
        getStatus? (get_execution st fs id).1 = some "complete")
    ∧ (¬(containsSub content "SUCCESS" = true ∧ containsSub content "Finished: SUCCESS" = true)
        ∧ (containsSub content "FAILURE" = true ∧ containsSub content "Finished: FAILURE" = true)
        → getStatus? (get_execution st fs id).1 = some "failed") := by
  by_cases h1 : containsSub content "SUCCESS" = true
      ∧ containsSub content "Finished: SUCCESS" = true
  · simp [get_execution, getStatus?, getConsole?, isOkE, hmiss, hfile, h1,
      setConsole, alookup_aupsert_self]
  · by_cases h2 : containsSub content "FAILURE" = true
        ∧ containsSub content "Finished: FAILURE" = true
    · simp [get_execution, getStatus?, getConsole?, isOkE, hmiss, hfile, h1, h2,
        setConsole, alookup_aupsert_self]
    · simp [get_execution, getStatus?, getConsole?, isOkE, hmiss, hfile, h1, h2,
        setConsole, alookup_aupsert_self]

/-- C4 witness: a concrete fallback file containing `Finished: SUCCESS`
yields a `complete` record with the file text, repopulating the store. -/
theorem C4_get_execution_fallback_witness :
    isOkE (get_execution {} [("metadata/console_e7.txt", "build ok\nFinished: SUCCESS\n")]
        "e7").1 = true
    ∧ (getStatus? (get_execution {} [("metadata/console_e7.txt", "build ok\nFinished: SUCCESS\n")]
        "e7").1 = some "complete"
      ∨ getStatus? (get_execution {} [("metadata/console_e7.txt", "build ok\nFinished: SUCCESS\n")]
        "e7").1 = some "failed"
      ∨ getStatus? (get_execution {} [("metadata/console_e7.txt", "build ok\nFinished: SUCCESS\n")]
        "e7").1 = some "unknown")
    ∧ getConsole? (get_execution {} [("metadata/console_e7.txt", "build ok\nFinished: SUCCESS\n")]
        "e7").1 = some "build ok\nFinished: SUCCESS\n"
    ∧ alookup (get_execution {} [("metadata/console_e7.txt", "build ok\nFinished: SUCCESS\n")]
        "e7").2.consoles "e7" = some "build ok\nFinished: SUCCESS\n"
    ∧ (containsSub "build ok\nFinished: SUCCESS\n" "SUCCESS" = true
        ∧ containsSub "build ok\nFinished: SUCCESS\n" "Finished: SUCCESS" = true →
        getStatus? (get_execution {} [("metadata/console_e7.txt", "build ok\nFinished: SUCCESS\n")]
          "e7").1 = some "complete")
    ∧ (¬(containsSub "build ok\nFinished: SUCCESS\n" "SUCCESS" = true
          ∧ containsSub "build ok\nFinished: SUCCESS\n" "Finished: SUCCESS" = true)
        ∧ (containsSub "build ok\nFinished: SUCCESS\n" "FAILURE" = true
          ∧ containsSub "build ok\nFinished: SUCCESS\n" "Finished: FAILURE" = true)
        → getStatus? (get_execution {}
            [("metadata/console_e7.txt", "build ok\nFinished: SUCCESS\n")] "e7").1
          = some "failed") :=
  C4_get_execution_fallback {} [("metadata/console_e7.txt", "build ok\nFinished: SUCCESS\n")]
    "e7" "build ok\nFinished: SUCCESS\n" (by rfl) (by rfl)

/-! ## C3 — status sets after `update_execution_status` -/

/-- The status the update reads before writing: the stored one, or
`"unknown"` for the minimal placeholder record it creates. -/
def oldStatusOf (st : Store) (id : String) : String :=
  match hashOf st id with
  | some h => h.status
  | none => "unknown"

/-- The hash produced by the update's field merge. -/
def mergedHash (h0 : ExecHash) (S result console : String) (dur : Nat) (now : String) :
    ExecHash :=
  let h := { h0 with status := S }
  let h := if result ≠ "" then { h with result := result } else h
  let h := if dur ≠ 0 then { h with duration := toString dur } else h
  let h := if S = "complete" ∨ S = "failed" then { h with finished_at := now } else h
  if console ≠ "" then { h with console_stored := "true" } else h

theorem mergedHash_status (h0 : ExecHash) (S result console : String) (dur : Nat)
    (now : String) : (mergedHash h0 S result console dur now).status = S := by
  unfold mergedHash
  split_ifs <;> rfl

theorem mergedHash_finished_at (h0 : ExecHash) (S result console : String) (dur : Nat)
    (now : String) : (mergedHash h0 S result console dur now).finished_at
      = if S = "complete" ∨ S = "failed" then now else h0.finished_at := by
  unfold mergedHash
  split_ifs <;> rfl

theorem statusSets_ite (c : Prop) [Decidable c] (a b : Store) :
    (if c then a else b).statusSets = if c then a.statusSets else b.statusSets :=
  apply_ite Store.statusSets c a b

theorem statusSets_setConsole (st : Store) (i t : String) :
    (setConsole st i t).statusSets = st.statusSets := rfl

theorem statusSets_delConsole (st : Store) (i : String) :
    (delConsole st i).statusSets = st.statusSets := rfl

theorem statusSets_zaddTemplateExec (st : Store) (t i : String) (sc : Nat) :
    (zaddTemplateExec st t i sc).statusSets = st.statusSets := rfl

theorem statusSets_zaddJobExec (st : Store) (sv j i : String) (sc : Nat) :
    (zaddJobExec st sv j i sc).statusSets = st.statusSets := rfl

theorem statusSetOf_sadd_self (st : Store) (s i : String) :
    statusSetOf (saddStatus st s i) s = sadd (statusSetOf st s) i := by
  simp [saddStatus, statusSetOf, alookup_aupsert_self]

theorem statusSetOf_sadd_ne (st : Store) (s s' i : String) (h : s ≠ s') :
    statusSetOf (saddStatus st s i) s' = statusSetOf st s' := by
  simp [saddStatus, statusSetOf, alookup_aupsert_ne _ _ _ _ h]

theorem statusSetOf_srem_self (st : Store) (s i : String) :
    statusSetOf (sremStatus st s i) s = srem (statusSetOf st s) i := by
  simp [sremStatus, statusSetOf, alookup_aupsert_self]

theorem statusSetOf_srem_ne (st : Store) (s s' i : String) (h : s ≠ s') :
    statusSetOf (sremStatus st s i) s' = statusSetOf st s' := by
  simp [sremStatus, statusSetOf, alookup_aupsert_ne _ _ _ _ h]

/-- The hash stored for `id` after the update is exactly the field
merge applied to the prior record (or to the minimal placeholder). -/
theorem hashOf_update (st : Store) (id S result console : String) (dur : Nat)
    (now : String) (ts : Nat) :
    hashOf (update_execution_status st id S result console dur now ts).1 id
      = some (mergedHash
          ((hashOf st id).getD { id := id, status := "unknown", started_at := now })
          S result console dur now) := by
  cases hh : hashOf st id with
  | some h0 =>
    have h2 : alookup st.execHashes id = some h0 := hh
    simp [update_execution_status, mergedHash, hh, h2, hashOf, alookup_aupsert_self,
      execHashes_ite, execHashes_saddStatus, execHashes_sremStatus,
      execHashes_zaddTemplateExec, execHashes_zaddJobExec, execHashes_setConsole,
      execHashes_delConsole]
  | none =>
    have h2 : alookup st.execHashes id = none := hh
    simp [update_execution_status, mergedHash, hh, h2, hashOf, alookup_aupsert_self,
      execHashes_ite, execHashes_saddStatus, execHashes_sremStatus,
      execHashes_zaddTemplateExec, execHashes_zaddJobExec, execHashes_setConsole,
      execHashes_delConsole]

/-- The update's effect on the status sets: nothing when the status is
unchanged; otherwise a removal from the previous set followed by an
insertion into the new one. -/
theorem statusSets_update (st : Store) (id S result console : String) (dur : Nat)
    (now : String) (ts : Nat) :
    (update_execution_status st id S result console dur now ts).1.statusSets
      = if S = oldStatusOf st id then st.statusSets
        else (saddStatus
            (if oldStatusOf st id ≠ "" then sremStatus st (oldStatusOf st id) id else st)
            S id).statusSets := by
  cases hh : hashOf st id with
  | some h0 =>
    have h2 : alookup st.execHashes id = some h0 := hh
    have hold : oldStatusOf st id = h0.status := by simp [oldStatusOf, hh]
    by_cases hs : S = h0.status
    · simp [update_execution_status, hh, h2, hs, hold, statusSets_ite,
        statusSets_setConsole, statusSets_delConsole, statusSets_zaddTemplateExec,
        statusSets_zaddJobExec, saddStatus, sremStatus, statusSetOf]
    · by_cases ho : h0.status = ""
      · simp [update_execution_status, hh, h2, hs, hold, ho, statusSets_ite,
          statusSets_setConsole, statusSets_delConsole, statusSets_zaddTemplateExec,
          statusSets_zaddJobExec, saddStatus, sremStatus, statusSetOf]
      · simp [update_execution_status, hh, h2, hs, hold, ho, statusSets_ite,
          statusSets_setConsole, statusSets_delConsole, statusSets_zaddTemplateExec,
          statusSets_zaddJobExec, saddStatus, sremStatus, statusSetOf]
  | none =>
    have h2 : alookup st.execHashes id = none := hh
    have hold : oldStatusOf st id = "unknown" := by simp [oldStatusOf, hh]
    by_cases hs : S = "unknown"
    · simp [update_execution_status, hh, h2, hs, hold, statusSets_ite,
        statusSets_setConsole, statusSets_delConsole, statusSets_zaddTemplateExec,
        statusSets_zaddJobExec, saddStatus, sremStatus, statusSetOf, hashOf,
        alookup_aupsert_self]
    · simp [update_execution_status, hh, h2, hs, hold, statusSets_ite,
        statusSets_setConsole, statusSets_delConsole, statusSets_zaddTemplateExec,
        statusSets_zaddJobExec, saddStatus, sremStatus, statusSetOf, hashOf,
        alookup_aupsert_self]

/-- Well-formed status bookkeeping: every membership in a (visible)
status set is matched by a record with that status, every record is in
the set named by its status, and no record carries an empty status.
This is established by `record_execution` and preserved by normal status
transitions; the update's own placeholder path can leave it (see the
counterexample). -/
def WFexec (st : Store) : Prop :=
  (∀ p ∈ st.statusSets, ∀ i ∈ p.2, (hashOf st i).map ExecHash.status = some p.1)
  ∧ (∀ q ∈ st.execHashes, q.1 ∈ statusSetOf st q.2.status)
  ∧ (∀ q ∈ st.execHashes, q.2.status ≠ "")

theorem getStatus_get (st : Store) (fs : List (String × String)) (id : String) (h : ExecHash)
    (hh : hashOf st id = some h) :
    getStatus? (get_execution st fs id).1 = some h.status := by
  cases halc : alookup st.consoles id with
  | some text => simp [get_execution, getStatus?, hh, halc]
  | none =>
    by_cases hcs : h.console_stored = "true"
    · cases hf : alookup fs (consolePath id) with
      | some c => simp [get_execution, getStatus?, hh, halc, hcs, hf]
      | none => simp [get_execution, getStatus?, hh, halc, hcs, hf]
    · simp [get_execution, getStatus?, hh, halc, hcs]

/-- C3 counterexample: updating a *missing* execution id to status
`"unknown"` takes the placeholder path; old and new status coincide, so
the id is added to no status set at all, while `get_execution` reports
status `"unknown"` — the claim's "the id is a member of the status set
for S" fails. -/
theorem C3_counterexample_unknown_update :
    ("e1" ∉ statusSetOf (update_execution_status {} "e1" "unknown" "" "" 0 "t0" 0).1 "unknown")
    ∧ getStatus? (get_execution
        (update_execution_status {} "e1" "unknown" "" "" 0 "t0" 0).1 [] "e1").1
      = some "unknown" := by
  exact ⟨by decide, by rfl⟩

/-- C3 amended: on a store with well-formed status bookkeeping
(`WFexec`), and provided the update is not the degenerate
`S = "unknown"`-on-a-missing-record case, `update_execution_status(id, S)`
leaves the store with: the record's status equal to `S` (as also reported
by `get_execution`), the id a member of status set `S` and of no other
status set, and `finished_at = now` whenever `S` is terminal
(`complete`/`failed`). -/
theorem C3_update_status_consistency (st : Store) (id S result console now : String)
    (dur ts : Nat)
    (hwf : WFexec st)
    (hcase : S ≠ "unknown" ∨ (hashOf st id).isSome = true) :
    ((hashOf (update_execution_status st id S result console dur now ts).1 id).map
        ExecHash.status = some S)
    ∧ id ∈ statusSetOf (update_execution_status st id S result console dur now ts).1 S
    ∧ (∀ s, s ≠ S →
        id ∉ statusSetOf (update_execution_status st id S result console dur now ts).1 s)
    ∧ (S = "complete" ∨ S = "failed" →
        (hashOf (update_execution_status st id S result console dur now ts).1 id).map
          ExecHash.finished_at = some now)
    ∧ (∀ fs, getStatus?
        (get_execution (update_execution_status st id S result console dur now ts).1 fs
          id).1 = some S) := by
  obtain ⟨hwf1, hwf2, hwf3⟩ := hwf
  have hhash := hashOf_update st id S result console dur now ts
  have hsets := statusSets_update st id S result console dur now ts
  have hset : ∀ s, statusSetOf (update_execution_status st id S result console dur now ts).1 s
      = if S = oldStatusOf st id then statusSetOf st s
        else statusSetOf
          (saddStatus (if oldStatusOf st id ≠ "" then sremStatus st (oldStatusOf st id) id
            else st) S id) s := by
    intro s
    simp only [statusSetOf]
    rw [hsets]
    by_cases hc : S = oldStatusOf st id
    · rw [if_pos hc, if_pos hc]
    · rw [if_neg hc, if_neg hc]
  have hold_ne : oldStatusOf st id ≠ "" := by
    cases hh : hashOf st id with
    | some h0 =>
      simp only [oldStatusOf, hh]
      exact hwf3 (id, h0) (alookup_mem _ _ _ hh)
    | none => simp [oldStatusOf, hh]
  have hstat_of_mem : ∀ s, id ∈ statusSetOf st s →
      (hashOf st id).map ExecHash.status = some s := by
    intro s hmem
    cases hal : alookup st.statusSets s with
    | none => simp [statusSetOf, hal] at hmem
    | some set =>
      exact hwf1 (s, set) (alookup_mem _ _ _ hal) id
        (by simpa [statusSetOf, hal] using hmem)
  refine ⟨?_, ?_, ?_, ?_, ?_⟩
  · rw [hhash]
    simp [mergedHash_status]
  · by_cases hso : S = oldStatusOf st id
    · rw [hset S, if_pos hso]
      cases hh : hashOf st id with
      | some h0 =>
        have hmem := hwf2 (id, h0) (alookup_mem _ _ _ hh)
        have hov : oldStatusOf st id = h0.status := by simp [oldStatusOf, hh]
        rw [hso, hov]
        exact hmem
      | none =>
        rcases hcase with hne | hsome
        · exact absurd (by rw [hso]; simp [oldStatusOf, hh]) hne
        · rw [hh] at hsome
          simp at hsome
    · rw [hset S, if_neg hso, statusSetOf_sadd_self]
      exact mem_sadd_self _ _
  · intro s hs
    by_cases hso : S = oldStatusOf st id
    · rw [hset s, if_pos hso]
      intro hmem
      have hst := hstat_of_mem s hmem
      cases hh : hashOf st id with
      | some h0 =>
        rw [hh] at hst
        simp at hst
        have hov : oldStatusOf st id = h0.status := by simp [oldStatusOf, hh]
        exact hs (by rw [← hst, ← hov, ← hso])
      | none =>
        rw [hh] at hst
        simp at hst
    · rw [hset s, if_neg hso, statusSetOf_sadd_ne _ _ _ _ (Ne.symm hs)]
      by_cases hsold : s = oldStatusOf st id
      · rw [if_pos hold_ne, hsold, statusSetOf_srem_self]
        exact not_mem_srem_self _ _
      · rw [if_pos hold_ne, statusSetOf_srem_ne _ _ _ _ (fun hq => hsold hq.symm)]
        intro hmem
        have hst := hstat_of_mem s hmem
        cases hh : hashOf st id with
        | some h0 =>
          rw [hh] at hst
          simp at hst
          have hov : oldStatusOf st id = h0.status := by simp [oldStatusOf, hh]
          exact hsold (by rw [← hst, ← hov])
        | none =>
          rw [hh] at hst
          simp at hst
  · intro hterm
    rw [hhash]
    simp [mergedHash_finished_at, hterm]
  · intro fs
    rw [getStatus_get _ fs id _ hhash]
    simp [mergedHash_status]

/-- Concrete store for the C3 witness: one running execution with
consistent status bookkeeping. -/
def c3Store : Store :=
  { execHashes := [("e1", { id := "e1", status := "running", started_at := "t0" })]
    statusSets := [("running", ["e1"])] }

/-- C3 witness: updating the running execution to `complete` on the
concrete store satisfies all five consequences. -/
theorem C3_update_status_consistency_witness :
    ((hashOf (update_execution_status c3Store "e1" "complete" "" "" 0 "t9" 9).1 "e1").map
        ExecHash.status = some "complete")
    ∧ "e1" ∈ statusSetOf (update_execution_status c3Store "e1" "complete" "" "" 0 "t9" 9).1
        "complete"
    ∧ (∀ s, s ≠ "complete" →
        "e1" ∉ statusSetOf (update_execution_status c3Store "e1" "complete" "" "" 0 "t9" 9).1 s)
    ∧ (("complete" : String) = "complete" ∨ ("complete" : String) = "failed" →
        (hashOf (update_execution_status c3Store "e1" "complete" "" "" 0 "t9" 9).1 "e1").map
          ExecHash.finished_at = some "t9")
    ∧ (∀ fs, getStatus?
        (get_execution (update_execution_status c3Store "e1" "complete" "" "" 0 "t9" 9).1 fs
          "e1").1 = some "complete") :=
  C3_update_status_consistency c3Store "e1" "complete" "" "" "t9" 0 9
    (by refine ⟨?_, ?_, ?_⟩ <;> decide)
    (Or.inl (by decide))

/-! ## C2 — `list_executions` limit and ordering -/

theorem descLE_true (p q : String × Nat) (h : descLE p q = true) : q.2 ≤ p.2 := by
  simp [descLE] at h
  rcases h with h | h
  · omega
  · omega

theorem descLE_false (p q : String × Nat) (h : descLE p q = false) : p.2 ≤ q.2 := by
  simp [descLE] at h
  omega

theorem mem_insertDesc (p x : String × Nat) (l : List (String × Nat)) :
    x ∈ insertDesc p l ↔ x = p ∨ x ∈ l := by
  induction l with
  | nil => simp [insertDesc]
  | cons q qs ih =>
    rw [insertDesc]
    by_cases h : descLE p q
    · simp [h]
    · simp [h, ih]
      tauto

theorem pairwise_insertDesc (p : String × Nat) (l : List (String × Nat))
    (h : List.Pairwise (fun a b => b.2 ≤ a.2) l) :
    List.Pairwise (fun a b => b.2 ≤ a.2) (insertDesc p l) := by
  induction l with
  | nil => simp [insertDesc]
  | cons q qs ih =>
    rw [insertDesc]
    by_cases hle : descLE p q
    · rw [if_pos hle]
      have hq : q.2 ≤ p.2 := descLE_true p q hle
      obtain ⟨hq_rel, hqs⟩ := List.pairwise_cons.mp h
      refine List.Pairwise.cons ?_ h
      intro x hx
      rcases List.mem_cons.mp hx with rfl | hx
      · exact hq
      · have := hq_rel x hx
        omega
    · rw [if_neg hle]
      have hp : p.2 ≤ q.2 := descLE_false p q (by simpa using hle)
      obtain ⟨hq_rel, hqs⟩ := List.pairwise_cons.mp h
      refine List.Pairwise.cons ?_ (ih hqs)
      intro x hx
      rcases (mem_insertDesc p x qs).mp hx with rfl | hx
      · exact hp
      · exact hq_rel x hx

theorem sortDesc_pairwise (z : List (String × Nat)) :
    List.Pairwise (fun a b => b.2 ≤ a.2) (sortDesc z) := by
  induction z with
  | nil => simp [sortDesc]
  | cons p ps ih => exact pairwise_insertDesc p _ ih

theorem mem_sortDesc (z : List (String × Nat)) (x : String × Nat) :
    x ∈ sortDesc z ↔ x ∈ z := by
  induction z with
  | nil => simp [sortDesc]
  | cons p ps ih =>
    rw [sortDesc, mem_insertDesc]
    simp [ih]

/-- Score of a member in a sorted set (0 when absent, only used for
members). -/
def scoreIn (z : List (String × Nat)) (x : String) : Nat :=
  (zscore z x).getD 0

theorem zscore_of_mem_nodup (z : List (String × Nat))
    (hnd : (z.map Prod.fst).Nodup) (p : String × Nat) (hp : p ∈ z) :
    zscore z p.1 = some p.2 := by
  induction z with
  | nil => simp at hp
  | cons q qs ih =>
    simp only [List.map_cons, List.nodup_cons] at hnd
    rcases List.mem_cons.mp hp with rfl | hp
    · simp [zscore, alookup]
    · have hne : q.1 ≠ p.1 := by
        intro hq
        exact hnd.1 (hq ▸ List.mem_map_of_mem Prod.fst hp)
      simp [zscore, alookup, hne]
      exact ih hnd.2 hp

/-- The full descending range is sorted by non-increasing member score. -/
theorem zrangeDescAll_sorted (z : List (String × Nat))
    (hnd : (z.map Prod.fst).Nodup) :
    List.Pairwise (fun a b => scoreIn z b ≤ scoreIn z a) (zrangeDescAll z) := by
  rw [zrangeDescAll, List.pairwise_map]
  refine (sortDesc_pairwise z).imp_of_mem ?_
  intro a b ha hb hr
  have hza := zscore_of_mem_nodup z hnd a ((mem_sortDesc z a).mp ha)
  have hzb := zscore_of_mem_nodup z hnd b ((mem_sortDesc z b).mp hb)
  simp [scoreIn, hza, hzb]
  exact hr

theorem pyTake_sublist (n : Int) (l : List String) : (pyTake n l).Sublist l := by
  unfold pyTake
  split <;> exact List.take_sublist _ _

theorem zrangeDescStop_sublist (z : List (String × Nat)) (stop : Int) :
    (zrangeDescStop z stop).Sublist (zrangeDescAll z) := by
  unfold zrangeDescStop
  exact List.take_sublist _ _

/-- The sorted set governing each of the four filter combinations of
`list_executions` (the per-template list when a template filter is given,
the global index otherwise). -/
def govIndex (st : Store) (template_name : Option String) : List (String × Nat) :=
  match template_name with
  | some t => templateExecsOf st t
  | none => st.executionsZ

/-- In every filter combination, the selected ids are ordered by
non-increasing score in the governing index. -/
theorem listExecutionIds_sorted (st : Store) (tmpl : Option String) (stat : Option String)
    (limit : Int) (hnd : ((govIndex st tmpl).map Prod.fst).Nodup) :
    List.Pairwise
      (fun a b => scoreIn (govIndex st tmpl) b ≤ scoreIn (govIndex st tmpl) a)
      (listExecutionIds st tmpl limit stat) := by
  have hall := zrangeDescAll_sorted (govIndex st tmpl) hnd
  cases tmpl with
  | some t =>
    cases stat with
    | some s =>
      refine List.Pairwise.sublist ?_ hall
      exact ((pyTake_sublist _ _).trans (List.filter_sublist _))
    | none =>
      exact List.Pairwise.sublist (zrangeDescStop_sublist _ _) hall
  | none =>
    cases stat with
    | some s =>
      simp only [listExecutionIds]
      split
      · refine List.Pairwise.sublist ?_ hall
        exact ((pyTake_sublist _ _).trans (List.filter_sublist _))
      · exact List.Pairwise.nil
    | none =>
      exact List.Pairwise.sublist (zrangeDescStop_sublist _ _) hall

theorem pyTake_length (n : Nat) (l : List String) : (pyTake (n : Int) l).length ≤ n := by
  unfold pyTake
  rw [if_pos (by omega)]
  simp

theorem zrangeDescStop_length (z : List (String × Nat)) (n : Nat) (hn : 1 ≤ n) :
    (zrangeDescStop z ((n : Int) - 1)).length ≤ n := by
  have h1 : ¬ ((n : Int) - 1 < 0) := by omega
  have h2 : ((n : Int) - 1 + 1).toNat = n := by omega
  simp only [zrangeDescStop, if_neg h1]
  rw [h2]
  simp

/-- In every filter combination, at most `limit` ids are selected when
`limit ≥ 1`. -/
theorem listExecutionIds_length (st : Store) (tmpl : Option String) (stat : Option String)
    (n : Nat) (hn : 1 ≤ n) :
    (listExecutionIds st tmpl (n : Int) stat).length ≤ n := by
  cases tmpl with
  | some t =>
    cases stat with
    | some s => exact pyTake_length n _
    | none => exact zrangeDescStop_length _ n hn
  | none =>
    cases stat with
    | some s =>
      simp only [listExecutionIds]
      split
      · exact pyTake_length n _
      · simp
    | none => exact zrangeDescStop_length _ n hn

theorem foldl_fetch_length (fs : List (String × String)) (ids : List String) :
    ∀ init : List GetResult × Store,
      (ids.foldl
        (fun acc eid =>
          match get_execution acc.2 fs eid with
          | (.ok r, st') => (acc.1 ++ [r], st')
          | (.error _, st') => (acc.1, st')) init).1.length ≤ init.1.length + ids.length := by
  induction ids with
  | nil => intro init; simp
  | cons e es ih =>
    intro init
    rw [List.foldl_cons]
    rcases hge : get_execution init.2 fs e with ⟨res, st2⟩
    cases res with
    | ok r =>
      simp only [hge]
      have h := ih (init.1 ++ [r], st2)
      simp only [List.length_append, List.length_cons, List.length_nil] at h ⊢
      omega
    | error msg =>
      simp only [hge]
      have h := ih (init.1, st2)
      simp only [List.length_cons] at h ⊢
      omega

theorem list_executions_length (st : Store) (fs : List (String × String))
    (tmpl : Option String) (stat : Option String) (n : Nat) (hn : 1 ≤ n) :
    (list_executions st fs tmpl (n : Int) stat).1.length ≤ n := by
  have h1 := foldl_fetch_length fs (listExecutionIds st tmpl (n : Int) stat) ([], st)
  have h2 := listExecutionIds_length st tmpl stat n hn
  simp only [list_executions]
  refine le_trans h1 ?_
  simpa using h2

/-- Store after recording `e1` (started `…T00:00:01`, score 1), recording
`e2` (started `…T00:00:02`, score 2), then marking `e1` complete at score 3:
the status transition refreshes `e1`'s score in the global index, putting
the execution with the *earlier* start time first in the descending range. -/
def c2Store : Store :=
  (update_execution_status
    (record_execution
      (record_execution {} "e1" "2024-01-01T00:00:01" 1 "" "" "" "" none []).1
      "e2" "2024-01-01T00:00:02" 2 "" "" "" "" none []).1
    "e1" "complete" "" "" 0 "2024-01-01T00:00:03" 3).1

/-- C2 counterexample: the listing is *not* ordered by start time, and
`limit = 0` does not bound the result.  On `c2Store`, `list_executions`
with no filters returns the records in *increasing* start-time order
(the completed-but-older `e1` outranks the newer `e2` because its index
score was refreshed by the status update), and with `limit = 0` it
returns all 2 records rather than at most 0. -/
theorem C2_counterexample_order_and_limit :
    ((list_executions c2Store [] none 10 none).1.map (fun r => r.hash.started_at)
        = ["2024-01-01T00:00:01", "2024-01-01T00:00:02"]) ∧
    ("2024-01-01T00:00:01" : String).data < "2024-01-01T00:00:02".data ∧
    (list_executions c2Store [] none 0 none).1.length = 2 := by
  refine ⟨by rfl, by decide, by rfl⟩

/-- C2 (amended): for every store, filesystem and filter combination, and
every limit `n ≥ 1` (the source treats `limit = 0` as "everything", via
`zrange(0, -1)` / a full scan), `list_executions` returns at most `n`
records, and the selected ids are ordered by non-increasing *score in the
governing sorted index* — which is the time of the last status refresh,
not the start time (hypothesis: the governing index, a Redis sorted set,
has no duplicate member, which Redis guarantees). -/
theorem C2_list_executions_amended (st : Store) (fs : List (String × String))
    (tmpl : Option String) (stat : Option String) (n : Nat) (hn : 1 ≤ n)
    (hnd : ((govIndex st tmpl).map Prod.fst).Nodup) :
    (list_executions st fs tmpl (n : Int) stat).1.length ≤ n ∧
    List.Pairwise
      (fun a b => scoreIn (govIndex st tmpl) b ≤ scoreIn (govIndex st tmpl) a)
      (listExecutionIds st tmpl (n : Int) stat) :=
  ⟨list_executions_length st fs tmpl stat n hn,
   listExecutionIds_sorted st tmpl stat ((n : Int)) hnd⟩

theorem C2_list_executions_amended_witness :
    (list_executions c2Store [] none ((1 : Nat) : Int) none).1.length ≤ 1 ∧
    List.Pairwise
      (fun a b => scoreIn (govIndex c2Store none) b ≤ scoreIn (govIndex c2Store none) a)
      (listExecutionIds c2Store none ((1 : Nat) : Int) none) :=
  C2_list_executions_amended c2Store [] none none 1 (by decide) (by decide)

end MiladyOS
